import Mathlib

/-!
Verification of the qlever binary-rebuild CLI and its rebuild pipeline.

The development embeds, as executable Lean definitions:
* the `executeBinaryRebuild` command handler and `main` dispatch of the CLI
  (`QleverCliMain.cpp`), including the skip guard over delta-triple counts,
  the JSON response envelopes, and the `_exit(0)` termination discipline;
* the `SuppressStreams` RAII guard (`StreamSuppressor.h/.cpp`) as a state
  machine over construction/destruction event traces;
* the rebuild pipeline components that the repository documents but whose
  implementation files are not part of the captured sources (the thread-budget
  governor, the ordered block scanner, the sorted merge of overlay edits, the
  rebuild coordinator, and the task-queue drain barrier); these are modelled
  from the specification and from `BINARY-BUILD.md`, and each such definition
  says so in its doc comment.
-/

namespace QleverSpec

/-! ## JSON response model (QleverCliMain.cpp) -/

/-- A JSON scalar value as used by the CLI response envelopes. -/
inductive JsonVal where
  | boolVal (b : Bool)
  | strVal (s : String)
  | numVal (n : Nat)
  deriving DecidableEq

/-- A JSON object, modelled as an ordered list of key/value fields. -/
abbrev Json : Type := List (String × JsonVal)

/-- Field lookup in a JSON object. -/
def jsonGet (j : Json) (k : String) : Option JsonVal :=
  List.lookup k j

def successKey : String := "success"
def errorKey : String := "error"
def queryKey : String := "query"
def timestampKey : String := "timestamp"
def skippedKey : String := "skipped"
def messageKey : String := "message"
def indexBasenameKey : String := "indexBasename"
def commandKey : String := "command"
def binaryRebuildCmd : String := "binary-rebuild"
def skipMessage : String :=
  "Binary rebuild not necessary: no delta triples to materialize."
def rebuildDoneMessage : String := "Binary rebuild completed successfully."

/-- `createErrorResponse` from QleverCliMain.cpp: success=false, the error text,
the optional query, and a timestamp. -/
def createErrorResponse (error : String) (query : String) (ts : Nat) : Json :=
  [(successKey, JsonVal.boolVal false), (errorKey, JsonVal.strVal error)]
    ++ (if query = "" then [] else [(queryKey, JsonVal.strVal query)])
    ++ [(timestampKey, JsonVal.numVal ts)]

/-- The error envelope emitted by `executeBinaryRebuild`'s catch block:
`createErrorResponse(e.what())` plus the `command` and `indexBasename` fields. -/
def rebuildErrorResponse (error : String) (basename : String) (ts : Nat) : Json :=
  createErrorResponse error "" ts
    ++ [(commandKey, JsonVal.strVal binaryRebuildCmd),
        (indexBasenameKey, JsonVal.strVal basename)]

/-- The skip-path response of `executeBinaryRebuild`. -/
def skipResponse (basename : String) (ts : Nat) : Json :=
  [(successKey, JsonVal.boolVal true), (skippedKey, JsonVal.boolVal true),
   (messageKey, JsonVal.strVal skipMessage),
   (indexBasenameKey, JsonVal.strVal basename),
   (timestampKey, JsonVal.numVal ts)]

/-- The success-path response of `executeBinaryRebuild`. -/
def rebuildSuccessResponse (basename : String) (ts : Nat) : Json :=
  [(successKey, JsonVal.boolVal true),
   (messageKey, JsonVal.strVal rebuildDoneMessage),
   (indexBasenameKey, JsonVal.strVal basename),
   (timestampKey, JsonVal.numVal ts)]

/-! ## The binary-rebuild command handler (QleverCliMain.cpp) -/

/-- `DeltaTriplesCount` as read by `getDeltaCounts()`: the number of inserted
and deleted delta triples pending in the overlay. -/
structure DeltaTriplesCount where
  triplesInserted_ : Nat
  triplesDeleted_ : Nat
  deriving DecidableEq

/-- How the handler leaves the process: `_exit(code)` (immediate, skipping all
C++ destructors) versus returning the code normally to `main`. -/
inductive ProcExit where
  | exitNoDestructors (code : Nat)
  | returnNormally (code : Nat)
  deriving DecidableEq

/-- Observable outcome of one `executeBinaryRebuild` invocation.  `α` is the
type of on-disk index states.  `rebuildInvoked` records whether control reached
`qlever->binaryRebuild(...)` (the only place any merge work happens or any
worker pool is allocated); `rebuildTarget` records the basename passed to it. -/
structure CliOutcome (α : Type) where
  stdoutWrites : List Json
  stdoutFlushed : Bool
  exitMode : ProcExit
  contextDestructorRan : Bool
  rebuildInvoked : Bool
  rebuildTarget : Option String
  finalFs : α

/-- Shallow embedding of `executeBinaryRebuild` (QleverCliMain.cpp, lines
654-712).  Parameters model the environment: `loadResult` is whether the
`QleverCliContext` constructor succeeds, `getDeltaCounts` reads the overlay
counts from the on-disk state, and `rebuildImpl` is `binaryRebuild`, which
either produces a new on-disk state or throws carrying whatever partial state
it left behind.  The handler checks the skip guard, then either emits the skip
response and calls `_exit(0)`, or runs the rebuild and emits the success
response followed by `_exit(0)`, or catches the exception and returns 1 after
emitting the error response. -/
def executeBinaryRebuild {α : Type} (indexBasename : String) (ts : Nat)
    (loadResult : Except String Unit)
    (getDeltaCounts : α → DeltaTriplesCount)
    (rebuildImpl : String → α → Except (String × α) α)
    (fs : α) : CliOutcome α :=
  match loadResult with
  | Except.error e =>
      { stdoutWrites := [rebuildErrorResponse e indexBasename ts],
        stdoutFlushed := true, exitMode := ProcExit.returnNormally 1,
        contextDestructorRan := false, rebuildInvoked := false,
        rebuildTarget := none, finalFs := fs }
  | Except.ok _ =>
      let counts := getDeltaCounts fs
      if counts.triplesInserted_ = 0 ∧ counts.triplesDeleted_ = 0 then
        { stdoutWrites := [skipResponse indexBasename ts],
          stdoutFlushed := true, exitMode := ProcExit.exitNoDestructors 0,
          contextDestructorRan := false, rebuildInvoked := false,
          rebuildTarget := none, finalFs := fs }
      else
        match rebuildImpl indexBasename fs with
        | Except.ok fs' =>
            { stdoutWrites := [rebuildSuccessResponse indexBasename ts],
              stdoutFlushed := true, exitMode := ProcExit.exitNoDestructors 0,
              contextDestructorRan := false, rebuildInvoked := true,
              rebuildTarget := some indexBasename, finalFs := fs' }
        | Except.error (e, fs') =>
            { stdoutWrites := [rebuildErrorResponse e indexBasename ts],
              stdoutFlushed := true, exitMode := ProcExit.returnNormally 1,
              contextDestructorRan := true, rebuildInvoked := true,
              rebuildTarget := some indexBasename, finalFs := fs' }

/-! ## The main dispatch (QleverCliMain.cpp, `main`) -/

/-- The action `main` selects from `argv`. -/
inductive CliAction where
  | showUsage (exitCode : Nat)
  | runQuery (basename query format name : String)
  | runUpdate (basename updateQuery : String)
  | runWrite (basename format inputFile defaultGraph : String)
  | runDelete (basename format inputFile defaultGraph : String)
  | runQueryToFile (basename query format outputFile : String)
  | runStats (basename : String)
  | runBuildIndex (jsonInput : String)
  | runBinaryRebuild (indexBasename : String)
  | runSerialize (basename format outputFile : String)
  deriving DecidableEq

/-- `argv[i]`, empty when absent (the C++ only reads `argv[i]` after checking
`argc`, so the default is never observed on the paths the code takes). -/
def argOrEmpty (argv : List String) (i : Nat) : String :=
  argv.getD i ""

/-- Shallow embedding of the command dispatch in `main` (QleverCliMain.cpp,
lines 714-773).  Note the `binary-rebuild` branch: it requires `argc >= 3` and
forwards only `argv[2]`; any further argument is silently ignored. -/
def mainDispatch (argv : List String) : CliAction :=
  let argc := argv.length
  if argc < 2 then CliAction.showUsage 1
  else
    let command := argOrEmpty argv 1
    if command = "--help" ∨ command = "-h" ∨ command = "help" then
      CliAction.showUsage 0
    else if command = "query" ∧ 4 ≤ argc then
      CliAction.runQuery (argOrEmpty argv 2) (argOrEmpty argv 3)
        (if 5 ≤ argc then argOrEmpty argv 4 else "")
        (if 6 ≤ argc then argOrEmpty argv 5 else "")
    else if command = "update" ∧ 4 ≤ argc then
      CliAction.runUpdate (argOrEmpty argv 2) (argOrEmpty argv 3)
    else if command = "write" ∧ 5 ≤ argc then
      CliAction.runWrite (argOrEmpty argv 2) (argOrEmpty argv 3)
        (argOrEmpty argv 4) (if 6 ≤ argc then argOrEmpty argv 5 else "")
    else if command = "delete" ∧ 5 ≤ argc then
      CliAction.runDelete (argOrEmpty argv 2) (argOrEmpty argv 3)
        (argOrEmpty argv 4) (if 6 ≤ argc then argOrEmpty argv 5 else "")
    else if command = "query-to-file" ∧ 6 ≤ argc then
      CliAction.runQueryToFile (argOrEmpty argv 2) (argOrEmpty argv 3)
        (argOrEmpty argv 4) (argOrEmpty argv 5)
    else if command = "stats" ∧ 3 ≤ argc then
      CliAction.runStats (argOrEmpty argv 2)
    else if command = "build-index" ∧ 3 ≤ argc then
      CliAction.runBuildIndex (argOrEmpty argv 2)
    else if command = "binary-rebuild" ∧ 3 ≤ argc then
      CliAction.runBinaryRebuild (argOrEmpty argv 2)
    else if command = "serialize" ∧ 4 ≤ argc then
      CliAction.runSerialize (argOrEmpty argv 2) (argOrEmpty argv 3)
        (if 5 ≤ argc then argOrEmpty argv 4 else "")
    else CliAction.showUsage 1

/-! ## Thread-budget governor -/

/-- `ThreadBudget` per the data model: all nested pool sizes, computed once. -/
structure ThreadBudget where
  outerPoolSize : Nat
  perTaskWriteWorkers : Nat
  perTaskWriteQueueDepth : Nat
  perTaskScanWorkers : Nat
  deriving DecidableEq

/-- Modelled from the spec: the captured sources contain no
`ThreadBudgetGovernor` implementation (src/BINARY-BUILD.md, "Thread Count
Parameterization", documents only ad hoc overrides applied in the absent
`IndexRebuilder.cpp`), so `computeBudget` is modelled from section 4.2 of the
spec: `outerPoolSize = min(numPairs, ceiling)`; when `ceiling <= numPairs`
(indeed whenever the ceiling does not exceed `numPairs` by at least a factor
of 4) the inner layers are forced sequential; otherwise each inner pool grows
to at most a small constant (4) while keeping the product of all pool sizes
within the ceiling. -/
def computeBudget (ceiling numPairs : Nat) : ThreadBudget :=
  if numPairs = 0 ∨ ceiling < 4 * numPairs then
    { outerPoolSize := min numPairs ceiling, perTaskWriteWorkers := 1,
      perTaskWriteQueueDepth := 2, perTaskScanWorkers := 1 }
  else
    let inner := min 4 (Nat.sqrt (ceiling / numPairs))
    { outerPoolSize := min numPairs ceiling, perTaskWriteWorkers := inner,
      perTaskWriteQueueDepth := 2 * inner, perTaskScanWorkers := inner }

/-! ## Sorted merge of an old permutation with overlay edits -/

/-- Drop all entries that appear in the overlay delete set. -/
def filterDeleted (dels : List Nat) (l : List Nat) : List Nat :=
  l.filter (fun x => !(dels.contains x))

/-- Modelled from the spec: the `PermutationRebuildTask` merge step (spec
section 4.5; the implementing `IndexRebuilder.cpp` is not among the captured
sources).  The cursor into the pre-sorted overlay inserts advances past every
insert smaller than the current old entry; each old entry matching a pending
overlay delete is dropped; every surviving entry is emitted in order. -/
def mergeRebuild (dels : List Nat) : List Nat → List Nat → List Nat
  | [], ins => filterDeleted dels ins
  | o :: os, ins =>
      filterDeleted dels (ins.takeWhile (fun i => i < o)) ++
        (if dels.contains o then
          mergeRebuild dels os (ins.dropWhile (fun i => i < o))
        else o :: mergeRebuild dels os (ins.dropWhile (fun i => i < o)))

/-- Reference definition: the plain sorted merge of two entry streams (old
entries win ties), with no deletions applied. -/
def mergeSorted : List Nat → List Nat → List Nat
  | [], ins => ins
  | o :: os, ins =>
      ins.takeWhile (fun i => i < o) ++
        o :: mergeSorted os (ins.dropWhile (fun i => i < o))

/-! ## Ordered block scanner -/

/-- A compressed block, identified by the inclusive key range it covers. -/
structure Block where
  minKey : Nat
  maxKey : Nat
  deriving DecidableEq

instance : Inhabited Block := ⟨{ minKey := 0, maxKey := 0 }⟩

/-- The per-permutation block invariant: block `i`'s maximum key is at most
block `i+1`'s minimum key. -/
def BlocksOrdered (blocks : List Block) : Prop :=
  List.Chain' (fun a b => a.maxKey ≤ b.minKey) blocks

/-- The release loop of the scanner's reorder buffer: while the next expected
block index is among the completed-but-undelivered ones, remove it and deliver
its block.  `fuel` bounds the number of iterations; callers pass at least
`pending.card + 1`, which the release loop can never exhaust. -/
def releaseReady (xs : List Block) :
    Nat → Nat → Finset Nat → List Block → Nat × Finset Nat × List Block
  | 0, next, pending, out => (next, pending, out)
  | fuel + 1, next, pending, out =>
      if next ∈ pending then
        releaseReady xs fuel (next + 1) (pending.erase next)
          (out ++ [xs.getD next default])
      else (next, pending, out)

/-- One completion event: interior block `i` finishes decompressing on some
helper thread; it joins the reorder buffer, and the buffer releases every
consecutively-ready block. -/
def scannerStep (xs : List Block) (s : Nat × Finset Nat × List Block)
    (i : Nat) : Nat × Finset Nat × List Block :=
  releaseReady xs ((insert i s.2.1).card + 1) s.1 (insert i s.2.1) s.2.2

/-- The interior-block sequence the scanner delivers, given the order in which
helper threads complete the interior blocks. -/
def deliverInterior (xs : List Block) (completions : List Nat) : List Block :=
  (completions.foldl (scannerStep xs) (0, ∅, [])).2.2

/-- A legal completion order: each interior block completes exactly once. -/
def ValidCompletions (order : List Nat) (n : Nat) : Prop :=
  order.Nodup ∧ order.toFinset = Finset.range n

instance decidableValidCompletions (order : List Nat) (n : Nat) :
    Decidable (ValidCompletions order n) :=
  inferInstanceAs (Decidable (order.Nodup ∧ order.toFinset = Finset.range n))

/-- Modelled from the spec: `OrderedBlockScanner.scan` (spec section 4.3; the
implementing `asyncParallelBlockGenerator` is not among the captured sources).
The first and last block are produced synchronously by the calling task;
interior blocks are completed by up to `scanWorkers` helper threads in an
arbitrary completion order and are released strictly in ascending index order
by the reorder buffer.  With `scanWorkers ≤ 1` the scan degrades to the fully
sequential completion order. -/
def scanBlocks (scanWorkers : Nat) (completions : List Nat) :
    List Block → List Block
  | [] => []
  | [b] => [b]
  | first :: b :: rest =>
      let tail := b :: rest
      let interior := tail.dropLast
      let lastB := tail.getLast (List.cons_ne_nil b rest)
      let order :=
        if scanWorkers ≤ 1 then List.range interior.length else completions
      first :: (deliverInterior interior order ++ [lastB])

/-! ## SuppressStreams (StreamSuppressor.h / StreamSuppressor.cpp) -/

/-- The per-guard data a `SuppressStreams` instance holds: its own devNull
streambuf (identified by a unique id), whether `/dev/null` opened, and the
rdbufs of `std::cerr`/`std::clog` saved at construction. -/
structure GuardInfo where
  buf : Nat
  opened : Bool
  savedCerr : Nat
  savedClog : Nat
  deriving DecidableEq

/-- The process-wide state the guards mutate under the static mutex: the
rdbufs currently installed in `std::cerr` and `std::clog`, the static
reference count and saved original buffers, the static sets of live and
historical devNull buffers, the registry of live guards, and a counter
allocating fresh streambuf identities. -/
structure StreamState where
  cerr : Nat
  clog : Nat
  refCount : Nat
  originalCerr : Nat
  originalClog : Nat
  devNullBufs : Finset Nat
  allDevNullBufs : Finset Nat
  live : List (Nat × GuardInfo)
  nextId : Nat
  deriving DecidableEq

/-- The streambuf installed in `std::cerr` before any guard exists. -/
def initialCerrBuf : Nat := 0

/-- The streambuf installed in `std::clog` before any guard exists. -/
def initialClogBuf : Nat := 1

/-- The devNull streambuf identity of guard `gid` (distinct per guard and
distinct from the initial cerr/clog buffers). -/
def guardBuf (gid : Nat) : Nat := gid + 2

/-- Process start: original streams installed, statics zero-initialized. -/
def initStreamState : StreamState :=
  { cerr := initialCerrBuf, clog := initialClogBuf, refCount := 0,
    originalCerr := 0, originalClog := 0, devNullBufs := ∅,
    allDevNullBufs := ∅, live := [], nextId := 0 }

/-- The `SuppressStreams` constructor: save the current rdbufs, register and
install the own devNull buffer if `/dev/null` opened, and on the 0 -> 1
reference-count transition record the originals. -/
def applyConstruct (opened : Bool) (s : StreamState) : StreamState :=
  let b := guardBuf s.nextId
  let info : GuardInfo :=
    { buf := b, opened := opened, savedCerr := s.cerr, savedClog := s.clog }
  { cerr := if opened then b else s.cerr,
    clog := if opened then b else s.clog,
    refCount := s.refCount + 1,
    originalCerr := if s.refCount = 0 then s.cerr else s.originalCerr,
    originalClog := if s.refCount = 0 then s.clog else s.originalClog,
    devNullBufs := if opened then insert b s.devNullBufs else s.devNullBufs,
    allDevNullBufs := s.allDevNullBufs,
    live := (s.nextId, info) :: s.live,
    nextId := s.nextId + 1 }

/-- The `SuppressStreams` destructor: move the own buffer from the live set to
the historical set, decrement the count, then either restore the recorded
originals (count hit zero, historical set cleared), restore the saved pair
(it is a valid original, or a still-live devNull), or leave the streams on
whatever is currently active. -/
def applyDestroy (gid : Nat) (s : StreamState) : StreamState :=
  match s.live.lookup gid with
  | none => s
  | some info =>
      let dn := s.devNullBufs.erase info.buf
      let all := insert info.buf s.allDevNullBufs
      let rc := s.refCount - 1
      let live' := s.live.filter (fun p => p.1 ≠ gid)
      if rc = 0 then
        { cerr := s.originalCerr, clog := s.originalClog, refCount := rc,
          originalCerr := s.originalCerr, originalClog := s.originalClog,
          devNullBufs := dn, allDevNullBufs := ∅, live := live',
          nextId := s.nextId }
      else if info.savedCerr ∉ all then
        { cerr := info.savedCerr, clog := info.savedClog, refCount := rc,
          originalCerr := s.originalCerr, originalClog := s.originalClog,
          devNullBufs := dn, allDevNullBufs := all, live := live',
          nextId := s.nextId }
      else if info.savedCerr ∈ dn then
        { cerr := info.savedCerr, clog := info.savedClog, refCount := rc,
          originalCerr := s.originalCerr, originalClog := s.originalClog,
          devNullBufs := dn, allDevNullBufs := all, live := live',
          nextId := s.nextId }
      else
        { cerr := s.cerr, clog := s.clog, refCount := rc,
          originalCerr := s.originalCerr, originalClog := s.originalClog,
          devNullBufs := dn, allDevNullBufs := all, live := live',
          nextId := s.nextId }

/-- A construction or destruction of a `SuppressStreams` guard (all such
operations are serialized by the static mutex, so any concurrent history is
some sequential trace of these events). -/
inductive GuardEvent where
  | construct (opened : Bool)
  | destroy (gid : Nat)
  deriving DecidableEq

/-- Apply one guard event. -/
def applyEvent (s : StreamState) (e : GuardEvent) : StreamState :=
  match e with
  | GuardEvent.construct opened => applyConstruct opened s
  | GuardEvent.destroy gid => applyDestroy gid s

/-- Run a trace of guard events from process start. -/
def runGuards (events : List GuardEvent) : StreamState :=
  events.foldl applyEvent initStreamState

/-- The devNull buffers of guards that have been constructed and destroyed. -/
def destroyedGuardBufs (s : StreamState) : Finset Nat :=
  (Finset.range s.nextId).filter
    (fun g => (s.live.lookup g).isNone) |>.image guardBuf

/-- The inductive invariant of the `SuppressStreams` state machine: the
reference count tracks the live guards; at count zero the original streams are
installed; during an epoch the recorded originals are the initial buffers; the
installed pair is either the initial pair or a devNull buffer (live or
historical); every live devNull buffer belongs to a live guard; every live
guard's saved pair is the initial pair or a (live or historical) devNull
buffer; and the bookkeeping of ids and buffer identities is consistent. -/
structure GoodState (s : StreamState) : Prop where
  count_eq : s.refCount = s.live.length
  restored : s.refCount = 0 → s.cerr = initialCerrBuf ∧ s.clog = initialClogBuf
  originals : 0 < s.refCount →
    s.originalCerr = initialCerrBuf ∧ s.originalClog = initialClogBuf
  current : (s.cerr = initialCerrBuf ∧ s.clog = initialClogBuf) ∨
    (s.clog = s.cerr ∧ (s.cerr ∈ s.devNullBufs ∨ s.cerr ∈ s.allDevNullBufs))
  liveBufs : ∀ b ∈ s.devNullBufs, ∃ p ∈ s.live, (p : Nat × GuardInfo).2.buf = b
  savedOk : ∀ p ∈ s.live, ((p : Nat × GuardInfo).2.savedCerr = initialCerrBuf ∧
      p.2.savedClog = initialClogBuf) ∨
    (p.2.savedClog = p.2.savedCerr ∧
      (p.2.savedCerr ∈ s.devNullBufs ∨ p.2.savedCerr ∈ s.allDevNullBufs))
  keyBound : ∀ p ∈ s.live,
    (p : Nat × GuardInfo).2.buf = guardBuf p.1 ∧ p.1 < s.nextId
  keysNodup : (s.live.map Prod.fst).Nodup
  dnLower : ∀ b ∈ s.devNullBufs, 2 ≤ b
  allLower : ∀ b ∈ s.allDevNullBufs, 2 ≤ b

/-! ## Rebuild coordinator (failure atomicity) -/

/-- An on-disk file of the index, distinguishing the published permutation
files of a base from the staging files a rebuild writes before publishing. -/
inductive DiskPath where
  | permFile (base : String) (pairIdx : Nat)
  | stagingFile (base : String) (pairIdx : Nat)
  deriving DecidableEq

/-- The disk: a map from paths to byte contents. -/
abbrev Disk : Type := List (DiskPath × List Nat)

/-- Read a file (byte content) from the disk. -/
def diskRead (d : Disk) (p : DiskPath) : Option (List Nat) :=
  List.lookup p d

/-- Write (create or replace) a file. -/
def diskWrite (d : Disk) (p : DiskPath) (content : List Nat) : Disk :=
  (p, content) :: d.filter (fun q => q.1 ≠ p)

/-- Remove a file. -/
def diskRemove (d : Disk) (p : DiskPath) : Disk :=
  d.filter (fun q => q.1 ≠ p)

/-- A rebuild failure: the injected write fault's position. -/
inductive RebuildError where
  | writeFailure (pairIdx blockIdx : Nat)
  deriving DecidableEq

/-- Append one merged block to a pair's staging file. -/
def appendBlockToStaging (newBase : String) (pairIdx : Nat)
    (blk : List Nat) (d : Disk) : Disk :=
  diskWrite d (DiskPath.stagingFile newBase pairIdx)
    (((diskRead d (DiskPath.stagingFile newBase pairIdx)).getD []) ++ blk)

/-- Write one pair's merged blocks to its staging file, block by block,
aborting at the first injected write fault.  Returns the error (if any) and
the disk as left behind at that point. -/
def writePairBlocks (newBase : String) (pairIdx : Nat)
    (faults : Nat → Nat → Bool) :
    Nat → List (List Nat) → Disk → Option RebuildError × Disk
  | _, [], d => (none, d)
  | blockIdx, blk :: rest, d =>
      if faults pairIdx blockIdx then
        (some (RebuildError.writeFailure pairIdx blockIdx), d)
      else
        writePairBlocks newBase pairIdx faults (blockIdx + 1) rest
          (appendBlockToStaging newBase pairIdx blk d)

/-- Run every pair's block writes in turn, aborting on the first failure. -/
def writeAllPairs (newBase : String) (faults : Nat → Nat → Bool) :
    Nat → List (List (List Nat)) → Disk → Option RebuildError × Disk
  | _, [], d => (none, d)
  | pairIdx, blocks :: rest, d =>
      match writePairBlocks newBase pairIdx faults 0 blocks d with
      | (some e, d') => (some e, d')
      | (none, d') => writeAllPairs newBase faults (pairIdx + 1) rest d'

/-- Publish the staged output of pairs `0 .. numPairs - 1`: move each staging
file onto the pair's permanent permutation file. -/
def publishPairs (newBase : String) : Nat → Disk → Disk
  | 0, d => d
  | n + 1, d =>
      let d' := publishPairs newBase n d
      diskRemove
        (diskWrite d' (DiskPath.permFile newBase n)
          ((diskRead d' (DiskPath.stagingFile newBase n)).getD []))
        (DiskPath.stagingFile newBase n)

/-- Discard the staging files of pairs `0 .. numPairs - 1`. -/
def discardStaging (newBase : String) : Nat → Disk → Disk
  | 0, d => d
  | n + 1, d => diskRemove (discardStaging newBase n d) (DiskPath.stagingFile newBase n)

/-- The result the coordinator reports. -/
structure RebuildSummary where
  skipped : Bool
  deriving DecidableEq

/-- Modelled from the spec: the `RebuildCoordinator` (spec sections 3, 4.1 and
7; the implementing `materializeToIndex` is not among the captured sources).
Every pair's merged blocks are streamed into staging files; any write failure
aborts the whole rebuild, the partial staging output is discarded and the
first error surfaced; only when every pair has finalized is the new output
atomically published onto the permanent permutation files. -/
def runRebuild (d : Disk) (newBase : String)
    (pairOutputs : List (List (List Nat))) (faults : Nat → Nat → Bool) :
    (Except RebuildError RebuildSummary) × Disk :=
  match writeAllPairs newBase faults 0 pairOutputs d with
  | (some e, d') => (Except.error e, discardStaging newBase pairOutputs.length d')
  | (none, d') =>
      (Except.ok { skipped := false }, publishPairs newBase pairOutputs.length d')

/-! ## TaskQueue finish (BINARY-BUILD.md) -/

/-- The possible outcomes of a drain/join barrier. -/
inductive FinishOutcome where
  | completed
  | timedOutError
  | blockedForever
  deriving DecidableEq

/-- A bounded work queue: queued and in-flight items, worker threads, and
whether `push` still accepts new items. -/
structure TaskQueueState where
  queuedTasks : Nat
  inFlightTasks : Nat
  workerThreads : Nat
  acceptingNew : Bool
  deriving DecidableEq

/-- Modelled from src/BINARY-BUILD.md ("TaskQueue::finish() Bottleneck", lines
100-103): `finish()` stops accepting new items and then unconditionally joins
every worker thread; there is no timeout of any kind.  When every worker can
run, the queue drains and all workers are joined; when some worker is starved
(the documented thread-stacking failure mode), the join blocks indefinitely
with no error reported. -/
def taskQueueFinish (workerStarved : Bool) (q : TaskQueueState) :
    FinishOutcome × TaskQueueState :=
  if workerStarved then
    (FinishOutcome.blockedForever,
     { queuedTasks := q.queuedTasks, inFlightTasks := q.inFlightTasks,
       workerThreads := q.workerThreads, acceptingNew := false })
  else
    (FinishOutcome.completed,
     { queuedTasks := 0, inFlightTasks := 0, workerThreads := 0,
       acceptingNew := false })

/-! ## Theorems -/

/-- Claim C1: for every overlay state in which the inserted count and the
deleted count are both zero, `executeBinaryRebuild` takes the skip branch: it
emits a response with `skipped = true` and never reaches
`qlever->binaryRebuild(...)` (the only site that performs merge work or
allocates worker pools) — in particular the outcome is identical for every
possible rebuild implementation; for every overlay state with at least one
non-zero count, the skip branch is not taken and the rebuild is invoked. -/
theorem skip_guard_correct {α : Type} (indexBasename : String) (ts : Nat)
    (getDeltaCounts : α → DeltaTriplesCount)
    (rebuildImpl : String → α → Except (String × α) α) (fs : α) :
    (((getDeltaCounts fs).triplesInserted_ = 0 ∧
        (getDeltaCounts fs).triplesDeleted_ = 0) →
      (executeBinaryRebuild indexBasename ts (Except.ok ()) getDeltaCounts
          rebuildImpl fs).rebuildInvoked = false ∧
      (executeBinaryRebuild indexBasename ts (Except.ok ()) getDeltaCounts
          rebuildImpl fs).stdoutWrites = [skipResponse indexBasename ts] ∧
      jsonGet (skipResponse indexBasename ts) skippedKey =
        some (JsonVal.boolVal true) ∧
      ∀ rebuildImpl' : String → α → Except (String × α) α,
        executeBinaryRebuild indexBasename ts (Except.ok ()) getDeltaCounts
            rebuildImpl' fs =
          executeBinaryRebuild indexBasename ts (Except.ok ()) getDeltaCounts
            rebuildImpl fs) ∧
    (¬ ((getDeltaCounts fs).triplesInserted_ = 0 ∧
        (getDeltaCounts fs).triplesDeleted_ = 0) →
      (executeBinaryRebuild indexBasename ts (Except.ok ()) getDeltaCounts
          rebuildImpl fs).rebuildInvoked = true ∧
      ∀ j ∈ (executeBinaryRebuild indexBasename ts (Except.ok ())
          getDeltaCounts rebuildImpl fs).stdoutWrites,
        jsonGet j skippedKey = none) := by
  constructor
  · intro hz
    refine ⟨?_, ?_, ?_, ?_⟩
    · simp [executeBinaryRebuild, hz]
    · simp [executeBinaryRebuild, hz]
    · simp [jsonGet, skipResponse, skippedKey, successKey, List.lookup]
    · intro rebuildImpl'
      simp [executeBinaryRebuild, hz]
  · intro hnz
    constructor
    · cases hr : rebuildImpl indexBasename fs with
      | ok fs' => simp [executeBinaryRebuild, hnz, hr]
      | error p => simp [executeBinaryRebuild, hnz, hr]
    · intro j hj
      cases hr : rebuildImpl indexBasename fs with
      | ok fs' =>
        simp [executeBinaryRebuild, hnz, hr] at hj
        subst hj
        simp [jsonGet, rebuildSuccessResponse, skippedKey, successKey,
          messageKey, indexBasenameKey, timestampKey, List.lookup]
      | error p =>
        simp [executeBinaryRebuild, hnz, hr] at hj
        subst hj
        simp [jsonGet, rebuildErrorResponse, createErrorResponse, skippedKey,
          successKey, errorKey, timestampKey, commandKey, indexBasenameKey,
          List.lookup]

/-- Witness for C1: a concrete invocation with both counts zero skips, and one
with a non-zero inserted count invokes the rebuild. -/
theorem skip_guard_correct_witness :
    (executeBinaryRebuild (α := Nat) ("idx") 7 (Except.ok ())
        (fun _ => { triplesInserted_ := 0, triplesDeleted_ := 0 })
        (fun _ fs => Except.ok (fs + 1)) 5).rebuildInvoked = false ∧
    (executeBinaryRebuild (α := Nat) ("idx") 7 (Except.ok ())
        (fun _ => { triplesInserted_ := 2, triplesDeleted_ := 0 })
        (fun _ fs => Except.ok (fs + 1)) 5).rebuildInvoked = true := by
  constructor
  · exact ((skip_guard_correct ("idx") 7
      (fun _ => { triplesInserted_ := 0, triplesDeleted_ := 0 })
      (fun _ fs => Except.ok (fs + 1)) 5).1 (by constructor <;> rfl)).1
  · exact ((skip_guard_correct ("idx") 7
      (fun _ => { triplesInserted_ := 2, triplesDeleted_ := 0 })
      (fun _ fs => Except.ok (fs + 1)) 5).2 (by simp)).1

/-- Claim C8: rebuilding an index with zero pending overlay edits is a no-op:
the response carries `skipped = true` and the on-disk state is returned
untouched, whatever the rebuild implementation would have done (it is never
run). -/
theorem rebuild_idempotent_no_deltas {α : Type} (indexBasename : String)
    (ts : Nat) (getDeltaCounts : α → DeltaTriplesCount)
    (rebuildImpl : String → α → Except (String × α) α) (fs : α)
    (hz : (getDeltaCounts fs).triplesInserted_ = 0 ∧
      (getDeltaCounts fs).triplesDeleted_ = 0) :
    (executeBinaryRebuild indexBasename ts (Except.ok ()) getDeltaCounts
        rebuildImpl fs).finalFs = fs ∧
    (executeBinaryRebuild indexBasename ts (Except.ok ()) getDeltaCounts
        rebuildImpl fs).stdoutWrites = [skipResponse indexBasename ts] ∧
    jsonGet (skipResponse indexBasename ts) skippedKey =
      some (JsonVal.boolVal true) ∧
    jsonGet (skipResponse indexBasename ts) successKey =
      some (JsonVal.boolVal true) := by
  refine ⟨?_, ?_, ?_, ?_⟩
  · simp [executeBinaryRebuild, hz]
  · simp [executeBinaryRebuild, hz]
  · simp [jsonGet, skipResponse, skippedKey, successKey, List.lookup]
  · simp [jsonGet, skipResponse, skippedKey, successKey, List.lookup]

/-- Witness for C8: a concrete zero-count invocation leaves the concrete
on-disk state (here the value 5) untouched. -/
theorem rebuild_idempotent_no_deltas_witness :
    (executeBinaryRebuild (α := Nat) ("idx") 7 (Except.ok ())
        (fun _ => { triplesInserted_ := 0, triplesDeleted_ := 0 })
        (fun _ fs => Except.ok (fs + 1)) 5).finalFs = 5 :=
  (rebuild_idempotent_no_deltas ("idx") 7
    (fun _ => { triplesInserted_ := 0, triplesDeleted_ := 0 })
    (fun _ fs => Except.ok (fs + 1)) 5 (by constructor <;> rfl)).1

/-- Claim C10: `executeBinaryRebuild` terminates via `_exit(0)` — without
running the `QleverCliContext` destructor — after writing exactly one JSON
object with `success = true` to stdout and flushing it, on both the skipped
and the successful path; it returns normally (with code 1) only when an
exception occurs, after writing a JSON object carrying `success = false`,
`error`, `command = binary-rebuild` and `indexBasename`. -/
theorem binary_rebuild_exit_behavior {α : Type} (indexBasename : String)
    (ts : Nat) (loadResult : Except String Unit)
    (getDeltaCounts : α → DeltaTriplesCount)
    (rebuildImpl : String → α → Except (String × α) α) (fs : α) :
    ((executeBinaryRebuild indexBasename ts loadResult getDeltaCounts
        rebuildImpl fs).exitMode = ProcExit.exitNoDestructors 0 ∨
      (executeBinaryRebuild indexBasename ts loadResult getDeltaCounts
        rebuildImpl fs).exitMode = ProcExit.returnNormally 1) ∧
    ((executeBinaryRebuild indexBasename ts loadResult getDeltaCounts
        rebuildImpl fs).exitMode = ProcExit.exitNoDestructors 0 →
      (executeBinaryRebuild indexBasename ts loadResult getDeltaCounts
          rebuildImpl fs).stdoutWrites.length = 1 ∧
      (∀ j ∈ (executeBinaryRebuild indexBasename ts loadResult getDeltaCounts
          rebuildImpl fs).stdoutWrites,
        jsonGet j successKey = some (JsonVal.boolVal true)) ∧
      (executeBinaryRebuild indexBasename ts loadResult getDeltaCounts
          rebuildImpl fs).stdoutFlushed = true ∧
      (executeBinaryRebuild indexBasename ts loadResult getDeltaCounts
          rebuildImpl fs).contextDestructorRan = false) ∧
    ((executeBinaryRebuild indexBasename ts loadResult getDeltaCounts
        rebuildImpl fs).exitMode = ProcExit.returnNormally 1 →
      ∃ e, (executeBinaryRebuild indexBasename ts loadResult getDeltaCounts
        rebuildImpl fs).stdoutWrites = [rebuildErrorResponse e indexBasename ts]) ∧
    (∀ e, jsonGet (rebuildErrorResponse e indexBasename ts) successKey =
        some (JsonVal.boolVal false) ∧
      jsonGet (rebuildErrorResponse e indexBasename ts) errorKey =
        some (JsonVal.strVal e) ∧
      jsonGet (rebuildErrorResponse e indexBasename ts) commandKey =
        some (JsonVal.strVal binaryRebuildCmd) ∧
      jsonGet (rebuildErrorResponse e indexBasename ts) indexBasenameKey =
        some (JsonVal.strVal indexBasename)) ∧
    ((loadResult = Except.ok () ∧
        ((getDeltaCounts fs).triplesInserted_ = 0 ∧
            (getDeltaCounts fs).triplesDeleted_ = 0 ∨
          ∃ fs', rebuildImpl indexBasename fs = Except.ok fs')) →
      (executeBinaryRebuild indexBasename ts loadResult getDeltaCounts
          rebuildImpl fs).exitMode = ProcExit.exitNoDestructors 0) := by
  have hfields : ∀ e, jsonGet (rebuildErrorResponse e indexBasename ts)
      successKey = some (JsonVal.boolVal false) ∧
      jsonGet (rebuildErrorResponse e indexBasename ts) errorKey =
        some (JsonVal.strVal e) ∧
      jsonGet (rebuildErrorResponse e indexBasename ts) commandKey =
        some (JsonVal.strVal binaryRebuildCmd) ∧
      jsonGet (rebuildErrorResponse e indexBasename ts) indexBasenameKey =
        some (JsonVal.strVal indexBasename) := by
    intro e
    refine ⟨?_, ?_, ?_, ?_⟩ <;>
      simp [jsonGet, rebuildErrorResponse, createErrorResponse, successKey,
        errorKey, timestampKey, commandKey, indexBasenameKey, List.lookup]
  cases loadResult with
  | error e =>
    refine ⟨Or.inr ?_, ?_, ?_, hfields, ?_⟩
    · simp [executeBinaryRebuild]
    · intro h
      simp [executeBinaryRebuild] at h
    · intro _
      exact ⟨e, by simp [executeBinaryRebuild]⟩
    · rintro ⟨h, -⟩
      exact absurd h (by simp)
  | ok u =>
    cases u
    by_cases hz : (getDeltaCounts fs).triplesInserted_ = 0 ∧
        (getDeltaCounts fs).triplesDeleted_ = 0
    · refine ⟨Or.inl ?_, ?_, ?_, hfields, ?_⟩
      · simp [executeBinaryRebuild, hz]
      · intro _
        refine ⟨by simp [executeBinaryRebuild, hz], ?_,
          by simp [executeBinaryRebuild, hz], by simp [executeBinaryRebuild, hz]⟩
        intro j hj
        simp [executeBinaryRebuild, hz] at hj
        subst hj
        simp [jsonGet, skipResponse, successKey, List.lookup]
      · intro h
        simp [executeBinaryRebuild, hz] at h
      · intro _
        simp [executeBinaryRebuild, hz]
    · cases hr : rebuildImpl indexBasename fs with
      | ok fs' =>
        refine ⟨Or.inl ?_, ?_, ?_, hfields, ?_⟩
        · simp [executeBinaryRebuild, hz, hr]
        · intro _
          refine ⟨by simp [executeBinaryRebuild, hz, hr], ?_,
            by simp [executeBinaryRebuild, hz, hr],
            by simp [executeBinaryRebuild, hz, hr]⟩
          intro j hj
          simp [executeBinaryRebuild, hz, hr] at hj
          subst hj
          simp [jsonGet, rebuildSuccessResponse, successKey, List.lookup]
        · intro h
          simp [executeBinaryRebuild, hz, hr] at h
        · intro _
          simp [executeBinaryRebuild, hz, hr]
      | error p =>
        refine ⟨Or.inr ?_, ?_, ?_, hfields, ?_⟩
        · simp [executeBinaryRebuild, hz, hr]
        · intro h
          simp [executeBinaryRebuild, hz, hr] at h
        · intro _
          exact ⟨p.1, by simp [executeBinaryRebuild, hz, hr]⟩
        · rintro ⟨-, hok⟩
          rcases hok with hzero | ⟨fs', hfs'⟩
          · exact absurd hzero hz
          · exact Except.noConfusion hfs'

/-- Witness for C10: a concrete invocation whose context constructor throws
returns normally with code 1 and writes the error envelope. -/
theorem binary_rebuild_exit_behavior_witness :
    (executeBinaryRebuild (α := Nat) ("idx") 7 (Except.error ("boom"))
        (fun _ => { triplesInserted_ := 0, triplesDeleted_ := 0 })
        (fun _ fs => Except.ok (fs + 1)) 5).exitMode =
      ProcExit.returnNormally 1 ∧
    ∃ e, (executeBinaryRebuild (α := Nat) ("idx") 7 (Except.error ("boom"))
        (fun _ => { triplesInserted_ := 0, triplesDeleted_ := 0 })
        (fun _ fs => Except.ok (fs + 1)) 5).stdoutWrites =
      [rebuildErrorResponse e ("idx") 7] :=
  ⟨by decide,
   (binary_rebuild_exit_behavior ("idx") 7 (Except.error ("boom"))
      (fun _ => { triplesInserted_ := 0, triplesDeleted_ := 0 })
      (fun _ fs => Except.ok (fs + 1)) 5).2.2.1 (by decide)⟩

/-- Claim C2: the thread budget never exceeds the ceiling:
`outerPoolSize * perTaskWriteWorkers * perTaskScanWorkers ≤ C`, the outer pool
is `min(N, C)`, and a tight ceiling (`C ≤ N`) forces both inner layers to a
single sequential worker. -/
theorem computeBudget_within_ceiling (C N : Nat) :
    (computeBudget C N).outerPoolSize * (computeBudget C N).perTaskWriteWorkers *
        (computeBudget C N).perTaskScanWorkers ≤ C ∧
    (computeBudget C N).outerPoolSize = min N C ∧
    (C ≤ N →
      (computeBudget C N).perTaskWriteWorkers = 1 ∧
      (computeBudget C N).perTaskScanWorkers = 1) := by
  by_cases h : N = 0 ∨ C < 4 * N
  · refine ⟨?_, ?_, ?_⟩
    · simp only [computeBudget]
      rw [if_pos h]
      simp only [Nat.mul_one]
      exact min_le_right N C
    · simp only [computeBudget]
      rw [if_pos h]
    · intro _
      simp only [computeBudget]
      rw [if_pos h]
      exact ⟨rfl, rfl⟩
  · have h' : ¬ (N = 0 ∨ C < 4 * N) := h
    push_neg at h
    obtain ⟨hN, hC⟩ := h
    have hNC : N ≤ C := le_trans (by omega) hC
    have hmin : min N C = N := min_eq_left hNC
    refine ⟨?_, ?_, ?_⟩
    · have hsq : min 4 (Nat.sqrt (C / N)) * min 4 (Nat.sqrt (C / N)) ≤ C / N := by
        calc min 4 (Nat.sqrt (C / N)) * min 4 (Nat.sqrt (C / N))
            ≤ Nat.sqrt (C / N) * Nat.sqrt (C / N) :=
              Nat.mul_le_mul (min_le_right _ _) (min_le_right _ _)
          _ ≤ C / N := by simpa [pow_two] using Nat.sqrt_le' (C / N)
      simp only [computeBudget]
      rw [if_neg h']
      dsimp only
      calc min N C * min 4 (Nat.sqrt (C / N)) * min 4 (Nat.sqrt (C / N))
          = N * (min 4 (Nat.sqrt (C / N)) * min 4 (Nat.sqrt (C / N))) := by
            rw [hmin, Nat.mul_assoc]
        _ ≤ N * (C / N) := Nat.mul_le_mul_left N hsq
        _ ≤ C := Nat.mul_div_le C N
    · simp only [computeBudget]
      rw [if_neg h']
    · intro hCN
      exact absurd hCN (by omega)

/-- Witness for C2: the budget at ceiling 2 and 3 pairs is fully sequential
inside and fits under the ceiling. -/
theorem computeBudget_within_ceiling_witness :
    (computeBudget 2 3).perTaskWriteWorkers = 1 ∧
    (computeBudget 2 3).perTaskScanWorkers = 1 ∧
    (computeBudget 2 3).outerPoolSize * (computeBudget 2 3).perTaskWriteWorkers *
      (computeBudget 2 3).perTaskScanWorkers ≤ 2 :=
  ⟨((computeBudget_within_ceiling 2 3).2.2 (by decide)).1,
   ((computeBudget_within_ceiling 2 3).2.2 (by decide)).2,
   (computeBudget_within_ceiling 2 3).1⟩

/-- Claim C6 (failing input): the CLI has no optional `newIndexBase`:
dispatching `binary-rebuild idx newIdx` ignores the extra argument entirely
(the dispatch result equals the three-argument one) and the rebuild is
invoked in place on the index basename itself. -/
theorem binary_rebuild_ignores_output_base :
    mainDispatch (["QleverCliMain", "binary-rebuild", "idx", "newIdx"]) =
      CliAction.runBinaryRebuild ("idx") ∧
    mainDispatch (["QleverCliMain", "binary-rebuild", "idx", "newIdx"]) =
      mainDispatch (["QleverCliMain", "binary-rebuild", "idx"]) ∧
    (executeBinaryRebuild (α := Nat) ("idx") 3 (Except.ok ())
        (fun _ => { triplesInserted_ := 1, triplesDeleted_ := 0 })
        (fun _ fs => Except.ok (fs + 1)) 0).rebuildTarget = some ("idx") := by
  refine ⟨by decide, by decide, by decide⟩

/-- Claim C7, counterexample: on a queue whose worker is starved (the
documented thread-stacking scenario), `finish()` blocks forever; it does not
produce the distinct timeout error the claim requires. -/
theorem taskqueue_finish_no_timeout_counterexample :
    (taskQueueFinish true
        { queuedTasks := 3, inFlightTasks := 1, workerThreads := 10,
          acceptingNew := true }).1 = FinishOutcome.blockedForever ∧
    (taskQueueFinish true
        { queuedTasks := 3, inFlightTasks := 1, workerThreads := 10,
          acceptingNew := true }).1 ≠ FinishOutcome.timedOutError := by
  constructor <;> decide

/-- Claim C7 as amended: `finish()` stops accepting new items and, when no
worker is starved, drains all queued and in-flight items and joins every
worker; but its wait is an unconditional join with no timeout, so a starved
worker blocks it indefinitely (never a distinct timeout error). -/
theorem taskqueue_finish_unconditional_join (starved : Bool)
    (q : TaskQueueState) :
    (taskQueueFinish starved q).2.acceptingNew = false ∧
    (taskQueueFinish starved q).1 ≠ FinishOutcome.timedOutError ∧
    (starved = false →
      (taskQueueFinish starved q).1 = FinishOutcome.completed ∧
      (taskQueueFinish starved q).2.queuedTasks = 0 ∧
      (taskQueueFinish starved q).2.inFlightTasks = 0 ∧
      (taskQueueFinish starved q).2.workerThreads = 0) ∧
    (starved = true →
      (taskQueueFinish starved q).1 = FinishOutcome.blockedForever) := by
  cases starved <;> simp [taskQueueFinish]

/-- Witness for the amended C7: the non-starved case on a concrete queue. -/
theorem taskqueue_finish_unconditional_join_witness :
    (taskQueueFinish false
        { queuedTasks := 3, inFlightTasks := 1, workerThreads := 10,
          acceptingNew := true }).1 = FinishOutcome.completed ∧
    (taskQueueFinish false
        { queuedTasks := 3, inFlightTasks := 1, workerThreads := 10,
          acceptingNew := true }).2.acceptingNew = false :=
  ⟨((taskqueue_finish_unconditional_join false
      { queuedTasks := 3, inFlightTasks := 1, workerThreads := 10,
        acceptingNew := true }).2.2.1 rfl).1,
   (taskqueue_finish_unconditional_join false
      { queuedTasks := 3, inFlightTasks := 1, workerThreads := 10,
        acceptingNew := true }).1⟩

/-- Every entry surviving `dropWhile (· < o)` of a sorted list is at least
`o`. -/
theorem pairwise_dropWhile_ge (o : Nat) (l : List Nat)
    (hp : l.Pairwise (fun a b => a ≤ b)) :
    ∀ b ∈ l.dropWhile (fun i => decide (i < o)), o ≤ b := by
  induction l with
  | nil => intro b hb; simp at hb
  | cons x t ih =>
    intro b hb
    by_cases hx : x < o
    · rw [List.dropWhile_cons_of_pos (by simpa using hx)] at hb
      exact ih (List.Pairwise.of_cons hp) b hb
    · rw [List.dropWhile_cons_of_neg (by simpa using hx)] at hb
      rcases List.mem_cons.mp hb with rfl | hbt
      · omega
      · have hxb : x ≤ b := (List.pairwise_cons.mp hp).1 b hbt
        omega

/-- The reference merge is a permutation of the concatenation of its two
sources. -/
theorem mergeSorted_perm : ∀ (olds ins : List Nat),
    (mergeSorted olds ins).Perm (olds ++ ins)
  | [], ins => by simp [mergeSorted]
  | o :: os, ins => by
    have ih := mergeSorted_perm os (ins.dropWhile (fun i => decide (i < o)))
    simp only [mergeSorted]
    have h4 : (ins.takeWhile (fun i => decide (i < o)) ++
        (os ++ ins.dropWhile (fun i => decide (i < o)))).Perm (os ++ ins) := by
      have he : os ++ ins = os ++ (ins.takeWhile (fun i => decide (i < o)) ++
          ins.dropWhile (fun i => decide (i < o))) := by
        rw [List.takeWhile_append_dropWhile]
      rw [he, ← List.append_assoc, ← List.append_assoc]
      exact List.perm_append_comm.append_right _
    have h2 : (ins.takeWhile (fun i => decide (i < o)) ++
        mergeSorted os (ins.dropWhile (fun i => decide (i < o)))).Perm
        (os ++ ins) :=
      (ih.append_left (ins.takeWhile (fun i => decide (i < o)))).trans h4
    exact List.perm_middle.trans (h2.cons o)

/-- The reference merge of two sorted entry streams is sorted. -/
theorem mergeSorted_pairwise : ∀ (olds ins : List Nat),
    olds.Pairwise (fun a b => a ≤ b) → ins.Pairwise (fun a b => a ≤ b) →
    (mergeSorted olds ins).Pairwise (fun a b => a ≤ b)
  | [], ins, _, hins => by simpa [mergeSorted] using hins
  | o :: os, ins, holds, hins => by
    simp only [mergeSorted]
    have hos := List.Pairwise.of_cons holds
    have hd : (ins.dropWhile (fun i => decide (i < o))).Pairwise
        (fun a b => a ≤ b) := hins.sublist (List.dropWhile_sublist _)
    have hM := mergeSorted_pairwise os
      (ins.dropWhile (fun i => decide (i < o))) hos hd
    have h_oM : ∀ b ∈ mergeSorted os (ins.dropWhile (fun i => decide (i < o))),
        o ≤ b := by
      intro b hb
      have hmem : b ∈ os ++ ins.dropWhile (fun i => decide (i < o)) :=
        (mergeSorted_perm os _).mem_iff.mp hb
      rcases List.mem_append.mp hmem with hbo | hbd
      · exact (List.pairwise_cons.mp holds).1 b hbo
      · exact pairwise_dropWhile_ge o ins hins b hbd
    rw [List.pairwise_append]
    refine ⟨hins.sublist (List.takeWhile_sublist _), ?_, ?_⟩
    · rw [List.pairwise_cons]
      exact ⟨h_oM, hM⟩
    · intro a ha b hb
      have hao : a < o := by
        have := List.mem_takeWhile_imp ha
        simpa using this
      rcases List.mem_cons.mp hb with rfl | hbM
      · omega
      · exact le_trans (le_of_lt hao) (h_oM b hbM)

/-- The cursor-based merge with inline deletion equals the plain sorted merge
with the deletes filtered out afterwards. -/
theorem mergeRebuild_eq_filter (dels : List Nat) : ∀ (olds ins : List Nat),
    mergeRebuild dels olds ins = filterDeleted dels (mergeSorted olds ins)
  | [], ins => by simp [mergeRebuild, mergeSorted]
  | o :: os, ins => by
    have ih := mergeRebuild_eq_filter dels os
      (ins.dropWhile (fun i => decide (i < o)))
    by_cases hdel : dels.contains o
    · simp only [mergeRebuild, mergeSorted, filterDeleted, List.filter_append,
        List.filter_cons, hdel, if_true, ih]
      simp [filterDeleted]
    · simp only [mergeRebuild, mergeSorted, filterDeleted, List.filter_append,
        List.filter_cons, ih]
      simp [filterDeleted, hdel]

/-- Claim C4: merge correctness.  The rebuilt entry stream is exactly the
sorted merge of the old entries with the overlay inserts, minus the overlay
deletes; it is sorted whenever both sources are; and on the concrete instance
`old = {A, B, D} = [0, 1, 3]`, `insert C = [2]`, `delete B = [1]` it yields
exactly `{A, C, D} = [0, 2, 3]` in sorted order. -/
theorem merge_rebuild_correct (olds ins dels : List Nat)
    (holds : olds.Pairwise (fun a b => a ≤ b))
    (hins : ins.Pairwise (fun a b => a ≤ b)) :
    mergeRebuild dels olds ins = filterDeleted dels (mergeSorted olds ins) ∧
    (mergeSorted olds ins).Perm (olds ++ ins) ∧
    (mergeSorted olds ins).Pairwise (fun a b => a ≤ b) ∧
    (mergeRebuild dels olds ins).Pairwise (fun a b => a ≤ b) ∧
    mergeRebuild [1] [0, 1, 3] [2] = [0, 2, 3] := by
  refine ⟨mergeRebuild_eq_filter dels olds ins, mergeSorted_perm olds ins,
    mergeSorted_pairwise olds ins holds hins, ?_, by decide⟩
  rw [mergeRebuild_eq_filter dels olds ins]
  exact (mergeSorted_pairwise olds ins holds hins).sublist
    (List.filter_sublist _)

/-- Witness for C4: the concrete instance `{A,B,D} + insert C - delete B`. -/
theorem merge_rebuild_correct_witness :
    mergeRebuild [1] [0, 1, 3] [2] = [0, 2, 3] ∧
    (mergeRebuild [1] [0, 1, 3] [2]).Pairwise (fun a b => a ≤ b) :=
  ⟨(merge_rebuild_correct [0, 1, 3] [2] [1] (by decide) (by decide)).2.2.2.2,
   (merge_rebuild_correct [0, 1, 3] [2] [1] (by decide) (by decide)).2.2.2.1⟩

/-- Specification of the release loop: starting from a buffer that holds
exactly the arrived indices `P` at or beyond `next`, with every index below
`next` already delivered, the loop delivers the maximal contiguous run and
stops exactly at the least index not yet arrived. -/
theorem releaseReady_spec (xs : List Block) (P : Finset Nat)
    (hPn : ∀ i ∈ P, i < xs.length) :
    ∀ (fuel next : Nat) (pending : Finset Nat) (out : List Block)
      (next' : Nat) (pending' : Finset Nat) (out' : List Block),
      pending.card < fuel →
      pending = P \ Finset.range next →
      (∀ i, i < next → i ∈ P) →
      out = xs.take next →
      releaseReady xs fuel next pending out = (next', pending', out') →
      out' = xs.take next' ∧ pending' = P \ Finset.range next' ∧
        (∀ i, i < next' → i ∈ P) ∧ next' ∉ P := by
  intro fuel
  induction fuel with
  | zero =>
    intro next pending out next' pending' out' hcard
    exact absurd hcard (Nat.not_lt_zero _)
  | succ f ih =>
    intro next pending out next' pending' out' hcard hpend hbelow hout hrun
    by_cases hnext : next ∈ pending
    · have hnextP : next ∈ P := by
        rw [hpend] at hnext
        exact (Finset.mem_sdiff.mp hnext).1
      have hlt : next < xs.length := hPn next hnextP
      have hrun' : releaseReady xs f (next + 1) (pending.erase next)
          (out ++ [xs.getD next default]) = (next', pending', out') := by
        rw [releaseReady, if_pos hnext] at hrun
        exact hrun
      refine ih (next + 1) (pending.erase next) (out ++ [xs.getD next default])
        next' pending' out' ?_ ?_ ?_ ?_ hrun'
      · have := Finset.card_erase_of_mem hnext
        have hpos : 0 < pending.card := Finset.card_pos.mpr ⟨next, hnext⟩
        omega
      · rw [hpend]
        ext i
        simp only [Finset.mem_erase, Finset.mem_sdiff, Finset.mem_range]
        constructor
        · rintro ⟨hne, hiP, hge⟩
          exact ⟨hiP, by omega⟩
        · rintro ⟨hiP, hge⟩
          refine ⟨?_, hiP, by omega⟩
          intro heq
          subst heq
          omega
      · intro i hi
        rcases Nat.lt_succ_iff_lt_or_eq.mp hi with hlt' | heq
        · exact hbelow i hlt'
        · subst heq
          exact hnextP
      · rw [hout, List.take_succ]
        have : xs[next]? = some (xs.get ⟨next, hlt⟩) := by
          rw [List.getElem?_eq_getElem hlt]
          rfl
        rw [this]
        have hgd : xs.getD next default = xs.get ⟨next, hlt⟩ := by
          rw [List.getD_eq_getElem?_getD, List.getElem?_eq_getElem hlt]
          rfl
        rw [hgd]
        rfl
    · rw [releaseReady, if_neg hnext] at hrun
      have h1 : next = next' := congrArg Prod.fst hrun
      have h2 : pending = pending' := congrArg (fun p => p.2.1) hrun
      have h3 : out = out' := congrArg (fun p => p.2.2) hrun
      subst h1
      subst h2
      subst h3
      refine ⟨hout, hpend, hbelow, ?_⟩
      intro hmem
      apply hnext
      rw [hpend]
      exact Finset.mem_sdiff.mpr ⟨hmem, by simp⟩

/-- The reorder-buffer invariant over the scanner state. -/
def ScannerInv (xs : List Block) (s : Nat × Finset Nat × List Block)
    (P : Finset Nat) : Prop :=
  s.2.2 = xs.take s.1 ∧ s.2.1 = P \ Finset.range s.1 ∧
    (∀ i, i < s.1 → i ∈ P) ∧ s.1 ∉ P

/-- One completion event preserves the reorder-buffer invariant. -/
theorem scannerStep_inv (xs : List Block) (s : Nat × Finset Nat × List Block)
    (P : Finset Nat) (i : Nat) (hPn : ∀ j ∈ P, j < xs.length)
    (hinv : ScannerInv xs s P) (hi : i < xs.length) (hiP : i ∉ P) :
    ScannerInv xs (scannerStep xs s i) (insert i P) := by
  obtain ⟨hout, hpend, hbelow, hnotin⟩ := hinv
  have hP'n : ∀ j ∈ insert i P, j < xs.length := by
    intro j hj
    rcases Finset.mem_insert.mp hj with rfl | hjP
    · exact hi
    · exact hPn j hjP
  have hinotrange : ¬ (i < s.1) := fun hlt => hiP (hbelow i hlt)
  have hpend' : insert i s.2.1 = insert i P \ Finset.range s.1 := by
    rw [hpend]
    ext j
    simp only [Finset.mem_insert, Finset.mem_sdiff, Finset.mem_range]
    constructor
    · rintro (rfl | ⟨hjP, hge⟩)
      · exact ⟨Or.inl rfl, hinotrange⟩
      · exact ⟨Or.inr hjP, hge⟩
    · rintro ⟨rfl | hjP, hge⟩
      · exact Or.inl rfl
      · exact Or.inr ⟨hjP, hge⟩
  have hbelow' : ∀ j, j < s.1 → j ∈ insert i P :=
    fun j hj => Finset.mem_insert_of_mem (hbelow j hj)
  have hrun : releaseReady xs ((insert i s.2.1).card + 1) s.1 (insert i s.2.1)
      s.2.2 = scannerStep xs s i := rfl
  obtain ⟨h1, h2, h3, h4⟩ := releaseReady_spec xs (insert i P) hP'n
    ((insert i s.2.1).card + 1) s.1 (insert i s.2.1) s.2.2
    (scannerStep xs s i).1 (scannerStep xs s i).2.1 (scannerStep xs s i).2.2
    (by omega) hpend' hbelow' hout (by rw [hrun])
  exact ⟨h1, h2, h3, h4⟩

/-- Folding any duplicate-free list of fresh in-range completion events
preserves the invariant, accumulating the arrived set. -/
theorem scannerFold_inv (xs : List Block) :
    ∀ (es : List Nat) (s : Nat × Finset Nat × List Block) (P : Finset Nat),
      (∀ j ∈ P, j < xs.length) → ScannerInv xs s P →
      (∀ j ∈ es, j < xs.length) → es.Nodup → (∀ j ∈ es, j ∉ P) →
      ScannerInv xs (es.foldl (scannerStep xs) s) (P ∪ es.toFinset)
  | [], s, P, _, hinv, _, _, _ => by simpa using hinv
  | i :: es, s, P, hPn, hinv, hes, hnodup, hfresh => by
    have hi : i < xs.length := hes i (List.mem_cons_self i es)
    have hiP : i ∉ P := hfresh i (List.mem_cons_self i es)
    have hstep := scannerStep_inv xs s P i hPn hinv hi hiP
    have hrest := scannerFold_inv xs es (scannerStep xs s i) (insert i P)
      (by
        intro j hj
        rcases Finset.mem_insert.mp hj with rfl | hjP
        · exact hi
        · exact hPn j hjP)
      hstep
      (fun j hj => hes j (List.mem_cons_of_mem i hj))
      (List.Nodup.of_cons hnodup)
      (by
        intro j hj
        have hji : j ≠ i := by
          intro heq
          subst heq
          exact (List.nodup_cons.mp hnodup).1 hj
        have hjP : j ∉ P := hfresh j (List.mem_cons_of_mem i hj)
        simp [Finset.mem_insert, hji, hjP])
    have hset : insert i P ∪ es.toFinset = P ∪ (i :: es).toFinset := by
      ext j
      simp only [Finset.mem_union, Finset.mem_insert, List.toFinset_cons]
      tauto
    rw [List.foldl_cons]
    rw [← hset]
    exact hrest

/-- The reorder buffer delivers the interior blocks exactly in index order,
for every legal completion order. -/
theorem deliverInterior_eq (xs : List Block) (order : List Nat)
    (hord : ValidCompletions order xs.length) :
    deliverInterior xs order = xs := by
  obtain ⟨hnodup, hcover⟩ := hord
  have hes : ∀ j ∈ order, j < xs.length := by
    intro j hj
    have : j ∈ order.toFinset := List.mem_toFinset.mpr hj
    rw [hcover] at this
    exact Finset.mem_range.mp this
  have hinv0 : ScannerInv xs (0, ∅, []) (∅ : Finset Nat) := by
    refine ⟨rfl, by simp, ?_, by simp⟩
    intro i hi
    omega
  have hfinal := scannerFold_inv xs order (0, ∅, []) ∅ (by simp) hinv0 hes
    hnodup (by simp)
  rw [Finset.empty_union, hcover] at hfinal
  obtain ⟨hout, _, hbelow, hnotin⟩ := hfinal
  set sf := order.foldl (scannerStep xs) (0, ∅, []) with hsf
  have hge : xs.length ≤ sf.1 := by
    by_contra hlt
    push_neg at hlt
    exact hnotin (Finset.mem_range.mpr hlt)
  have hle : sf.1 ≤ xs.length := by
    by_contra hgt
    push_neg at hgt
    have := hbelow xs.length hgt
    simp at this
  have hlen : sf.1 = xs.length := le_antisymm hle hge
  have : deliverInterior xs order = sf.2.2 := rfl
  rw [this, hout, hlen, List.take_length]

/-- The full scan reproduces the block sequence: first and last synchronous,
interior through the reorder buffer. -/
theorem scanBlocks_eq_blocks (w : Nat) (order : List Nat)
    (blocks : List Block)
    (hord : ValidCompletions order (blocks.length - 2)) :
    scanBlocks w order blocks = blocks := by
  match blocks with
  | [] => rfl
  | [b] => rfl
  | first :: b :: rest =>
    have hlen : ((b :: rest).dropLast).length = (first :: b :: rest).length - 2 := by
      simp [List.length_dropLast]
    have hseq : ValidCompletions (List.range ((b :: rest).dropLast).length)
        ((b :: rest).dropLast).length :=
      ⟨List.nodup_range _, by ext i; simp⟩
    simp only [scanBlocks]
    by_cases hw : w ≤ 1
    · rw [if_pos hw, deliverInterior_eq _ _ hseq,
        List.dropLast_append_getLast (List.cons_ne_nil b rest)]
    · rw [if_neg hw, deliverInterior_eq _ _ (by rw [hlen]; exact hord),
        List.dropLast_append_getLast (List.cons_ne_nil b rest)]

/-- Claim C3: for every permutation (block sequence satisfying the key-range
invariant) and every `scanWorkers` in `{0, 1, 2, 8}`, the scanner yields the
blocks in non-decreasing key-range order, and the yielded sequence is
identical for every `scanWorkers` value and every legal completion order:
parallelism never changes the output. -/
theorem scanner_ordered_and_deterministic (blocks : List Block)
    (hsorted : BlocksOrdered blocks) (w w' : Nat)
    (_hw : w ∈ [0, 1, 2, 8]) (_hw' : w' ∈ [0, 1, 2, 8])
    (order order' : List Nat)
    (hord : ValidCompletions order (blocks.length - 2))
    (hord' : ValidCompletions order' (blocks.length - 2)) :
    scanBlocks w order blocks = blocks ∧
    BlocksOrdered (scanBlocks w order blocks) ∧
    scanBlocks w order blocks = scanBlocks w' order' blocks := by
  have h1 := scanBlocks_eq_blocks w order blocks hord
  have h2 := scanBlocks_eq_blocks w' order' blocks hord'
  exact ⟨h1, by rw [h1]; exact hsorted, by rw [h1, h2]⟩

/-- Witness for C3: a concrete four-block permutation scanned with 8 workers
and interior blocks completing out of order equals the sequential scan. -/
theorem scanner_ordered_and_deterministic_witness :
    scanBlocks 8 [1, 0]
        [{ minKey := 0, maxKey := 1 }, { minKey := 2, maxKey := 3 },
         { minKey := 4, maxKey := 5 }, { minKey := 6, maxKey := 7 }] =
      [{ minKey := 0, maxKey := 1 }, { minKey := 2, maxKey := 3 },
       { minKey := 4, maxKey := 5 }, { minKey := 6, maxKey := 7 }] ∧
    scanBlocks 8 [1, 0]
        [{ minKey := 0, maxKey := 1 }, { minKey := 2, maxKey := 3 },
         { minKey := 4, maxKey := 5 }, { minKey := 6, maxKey := 7 }] =
      scanBlocks 0 [0, 1]
        [{ minKey := 0, maxKey := 1 }, { minKey := 2, maxKey := 3 },
         { minKey := 4, maxKey := 5 }, { minKey := 6, maxKey := 7 }] :=
  ⟨(scanner_ordered_and_deterministic
      [{ minKey := 0, maxKey := 1 }, { minKey := 2, maxKey := 3 },
       { minKey := 4, maxKey := 5 }, { minKey := 6, maxKey := 7 }]
      (by simp [BlocksOrdered, List.chain'_cons]) 8 0 (by decide) (by decide)
      [1, 0] [0, 1] (by decide) (by decide)).1,
   (scanner_ordered_and_deterministic
      [{ minKey := 0, maxKey := 1 }, { minKey := 2, maxKey := 3 },
       { minKey := 4, maxKey := 5 }, { minKey := 6, maxKey := 7 }]
      (by simp [BlocksOrdered, List.chain'_cons]) 8 0 (by decide) (by decide)
      [1, 0] [0, 1] (by decide) (by decide)).2.2⟩

/-- A successful association-list lookup yields a member. -/
theorem lookup_mem {β : Type} (k : Nat) (v : β) :
    ∀ l : List (Nat × β), l.lookup k = some v → (k, v) ∈ l := by
  intro l
  induction l with
  | nil => intro h; simp [List.lookup] at h
  | cons p t ih =>
    obtain ⟨a, b⟩ := p
    intro h
    simp only [List.lookup] at h
    split at h
    · rename_i hk
      have hka : k = a := by simpa using hk
      injection h with hv
      subst hka
      subst hv
      exact List.mem_cons_self _ _
    · exact List.mem_cons_of_mem _ (ih h)

/-- A member's key is found by lookup. -/
theorem lookup_isSome_of_mem {β : Type} (k : Nat) (v : β) :
    ∀ l : List (Nat × β), (k, v) ∈ l → (l.lookup k).isSome := by
  intro l
  induction l with
  | nil => intro h; simp at h
  | cons p t ih =>
    obtain ⟨a, b⟩ := p
    intro h
    simp only [List.lookup]
    split
    · simp
    · rename_i hk
      rcases List.mem_cons.mp h with heq | hmem
      · injection heq with h1 h2
        subst h1
        simp at hk
      · exact ih hmem

/-- With duplicate-free keys, a key determines its value. -/
theorem keys_nodup_unique {β : Type} (k : Nat) (a b : β) :
    ∀ l : List (Nat × β), (l.map Prod.fst).Nodup →
      (k, a) ∈ l → (k, b) ∈ l → a = b := by
  intro l
  induction l with
  | nil => intro _ ha; simp at ha
  | cons p t ih =>
    obtain ⟨x, y⟩ := p
    intro hnd ha hb
    rw [List.map_cons] at hnd
    have hx : x ∉ t.map Prod.fst := (List.nodup_cons.mp hnd).1
    have hnd' : (t.map Prod.fst).Nodup := (List.nodup_cons.mp hnd).2
    rcases List.mem_cons.mp ha with hha | hha
    · rcases List.mem_cons.mp hb with hhb | hhb
      · injection hha with h1 h2
        injection hhb with h3 h4
        rw [h2, h4]
      · injection hha with h1 h2
        subst h1
        exact absurd (List.mem_map.mpr ⟨(k, b), hhb, rfl⟩) hx
    · rcases List.mem_cons.mp hb with hhb | hhb
      · injection hhb with h3 h4
        subst h3
        exact absurd (List.mem_map.mpr ⟨(k, a), hha, rfl⟩) hx
      · exact ih hnd' hha hhb

/-- Removing a present key from a duplicate-free association list shortens it
by exactly one. -/
theorem filter_key_length {β : Type} (k : Nat) (v : β) :
    ∀ l : List (Nat × β), (l.map Prod.fst).Nodup → (k, v) ∈ l →
      (l.filter (fun p => p.1 ≠ k)).length + 1 = l.length := by
  intro l
  induction l with
  | nil => intro _ h; simp at h
  | cons p t ih =>
    obtain ⟨x, y⟩ := p
    intro hnd hmem
    rw [List.map_cons] at hnd
    have hx : x ∉ t.map Prod.fst := (List.nodup_cons.mp hnd).1
    have hnd' : (t.map Prod.fst).Nodup := (List.nodup_cons.mp hnd).2
    by_cases hxk : x = k
    · subst hxk
      have hkeep : t.filter (fun p => p.1 ≠ x) = t := by
        rw [List.filter_eq_self]
        intro p hp
        simp only [decide_eq_true_eq]
        intro hpx
        exact hx (List.mem_map.mpr ⟨p, hp, hpx⟩)
      have hflt : List.filter (fun p => decide (p.1 ≠ x)) ((x, y) :: t) =
          List.filter (fun p => decide (p.1 ≠ x)) t := by
        rw [List.filter_cons]
        have hfalse : (decide ((x, y).1 ≠ x)) = false := by simp
        rw [hfalse]
        simp
      rw [hflt, hkeep]
      rfl
    · have hmem' : (k, v) ∈ t := by
        rcases List.mem_cons.mp hmem with heq | hm
        · injection heq with h1 h2
          exact absurd h1.symm hxk
        · exact hm
      have hflt : List.filter (fun p => decide (p.1 ≠ k)) ((x, y) :: t) =
          (x, y) :: List.filter (fun p => decide (p.1 ≠ k)) t := by
        rw [List.filter_cons]
        have htrue : (decide ((x, y).1 ≠ k)) = true := by simp [hxk]
        rw [htrue]
        simp
      rw [hflt]
      simp only [List.length_cons]
      rw [← ih hnd' hmem']

/-- The initial stream state satisfies the invariant. -/
theorem goodState_init : GoodState initStreamState := by
  refine ⟨rfl, fun _ => ⟨rfl, rfl⟩, ?_, Or.inl ⟨rfl, rfl⟩, ?_, ?_, ?_, ?_, ?_, ?_⟩
  · intro h
    simp [initStreamState] at h
  · intro b hb
    simp [initStreamState] at hb
  · intro p hp
    simp [initStreamState] at hp
  · intro p hp
    simp [initStreamState] at hp
  · simp [initStreamState]
  · intro b hb
    simp [initStreamState] at hb
  · intro b hb
    simp [initStreamState] at hb

/-- The constructor preserves the invariant. -/
theorem goodState_construct (opened : Bool) (s : StreamState)
    (hs : GoodState s) : GoodState (applyConstruct opened s) := by
  have hfresh : ∀ p ∈ s.live, (p : Nat × GuardInfo).1 ≠ s.nextId :=
    fun p hp => Nat.ne_of_lt (hs.keyBound p hp).2
  refine ⟨?_, ?_, ?_, ?_, ?_, ?_, ?_, ?_, ?_, ?_⟩
  · simp [applyConstruct, hs.count_eq]
  · intro h
    simp [applyConstruct] at h
  · intro _
    by_cases h0 : s.refCount = 0
    · simp only [applyConstruct, h0, if_pos]
      exact hs.restored h0
    · simp only [applyConstruct, if_neg h0]
      exact hs.originals (Nat.pos_of_ne_zero h0)
  · by_cases ho : opened
    · subst ho
      right
      constructor
      · simp [applyConstruct]
      · left
        simp [applyConstruct]
    · have hob : opened = false := Bool.eq_false_iff.mpr ho
      subst hob
      simp only [applyConstruct, if_neg (Bool.false_ne_true), Bool.false_eq_true]
      rcases hs.current with hc | hc
      · exact Or.inl hc
      · exact Or.inr hc
  · intro b hb
    by_cases ho : opened = true
    · subst ho
      simp only [applyConstruct, if_pos rfl] at hb ⊢
      rcases Finset.mem_insert.mp hb with rfl | hb'
      · exact ⟨(s.nextId,
          { buf := guardBuf s.nextId, opened := true, savedCerr := s.cerr,
            savedClog := s.clog }), List.mem_cons_self _ _, rfl⟩
      · obtain ⟨p, hp, hpb⟩ := hs.liveBufs b hb'
        exact ⟨p, List.mem_cons_of_mem _ hp, hpb⟩
    · have hob : opened = false := Bool.eq_false_iff.mpr ho
      subst hob
      obtain ⟨p, hp, hpb⟩ := hs.liveBufs b hb
      exact ⟨p, List.mem_cons_of_mem _ hp, hpb⟩
  · intro p hp
    simp only [applyConstruct, List.mem_cons] at hp
    rcases hp with rfl | hp
    · rcases hs.current with hc | hc
      · exact Or.inl ⟨hc.1, hc.2⟩
      · right
        refine ⟨hc.1, ?_⟩
        rcases hc.2 with hdn | hall
        · left
          by_cases ho : opened = true
          · subst ho
            simp only [applyConstruct, if_pos rfl]
            exact Finset.mem_insert_of_mem hdn
          · have hob : opened = false := Bool.eq_false_iff.mpr ho
            subst hob
            simpa [applyConstruct] using hdn
        · right
          exact hall
    · rcases hs.savedOk p hp with hso | hso
      · exact Or.inl hso
      · right
        refine ⟨hso.1, ?_⟩
        rcases hso.2 with hdn | hall
        · left
          by_cases ho : opened = true
          · subst ho
            simp only [applyConstruct, if_pos rfl]
            exact Finset.mem_insert_of_mem hdn
          · have hob : opened = false := Bool.eq_false_iff.mpr ho
            subst hob
            simpa [applyConstruct] using hdn
        · right
          exact hall
  · intro p hp
    simp only [applyConstruct, List.mem_cons] at hp
    rcases hp with rfl | hp
    · exact ⟨rfl, by simp [applyConstruct]⟩
    · obtain ⟨hb, hlt⟩ := hs.keyBound p hp
      exact ⟨hb, by simp [applyConstruct]; omega⟩
  · simp only [applyConstruct, List.map_cons, List.nodup_cons]
    refine ⟨?_, hs.keysNodup⟩
    intro hmem
    obtain ⟨p, hp, hpk⟩ := List.mem_map.mp hmem
    exact hfresh p hp hpk
  · intro b hb
    by_cases ho : opened = true
    · subst ho
      simp only [applyConstruct, if_pos rfl] at hb
      rcases Finset.mem_insert.mp hb with rfl | hb'
      · simp [guardBuf]
      · exact hs.dnLower b hb'
    · have hob : opened = false := Bool.eq_false_iff.mpr ho
      subst hob
      exact hs.dnLower b hb
  · intro b hb
    simp only [applyConstruct] at hb
    exact hs.allLower b hb

/-- The destructor preserves the invariant. -/
theorem goodState_destroy (gid : Nat) (s : StreamState) (hs : GoodState s) :
    GoodState (applyDestroy gid s) := by
  cases hlk : s.live.lookup gid with
  | none =>
    simp only [applyDestroy, hlk]
    exact hs
  | some info =>
    have hmem : (gid, info) ∈ s.live := lookup_mem gid info s.live hlk
    have hbuf : info.buf = guardBuf gid := (hs.keyBound _ hmem).1
    have hlen : (s.live.filter (fun p => p.1 ≠ gid)).length + 1 = s.live.length :=
      filter_key_length gid info s.live hs.keysNodup hmem
    have hrcpos : 0 < s.refCount := by
      rw [hs.count_eq]
      have := List.length_pos.mpr (List.ne_nil_of_mem hmem)
      omega
    have hlive_sub : ∀ p : Nat × GuardInfo, p ∈ s.live → p.1 ≠ gid →
        p ∈ s.live.filter (fun q => q.1 ≠ gid) := by
      intro p hp hne
      rw [List.mem_filter]
      exact ⟨hp, by simpa using hne⟩
    have hfilter_mem : ∀ p : Nat × GuardInfo,
        p ∈ s.live.filter (fun q => q.1 ≠ gid) → p ∈ s.live := by
      intro p hp
      exact (List.mem_filter.mp hp).1
    have hdnlive : ∀ b ∈ s.devNullBufs.erase info.buf,
        ∃ p ∈ s.live.filter (fun q => q.1 ≠ gid),
          (p : Nat × GuardInfo).2.buf = b := by
      intro b hb
      have hbn : b ≠ info.buf := (Finset.mem_erase.mp hb).1
      obtain ⟨p, hp, hpb⟩ := hs.liveBufs b (Finset.mem_erase.mp hb).2
      have hne : p.1 ≠ gid := by
        intro heq
        have hgp : (gid, p.2) ∈ s.live := by
          have hps : (gid, p.2) = p := by rw [← heq]
          rw [hps]
          exact hp
        have hpi : p.2 = info :=
          keys_nodup_unique gid p.2 info s.live hs.keysNodup hgp hmem
        rw [hpi] at hpb
        exact hbn hpb.symm
      exact ⟨p, hlive_sub p hp hne, hpb⟩
    have hnodup' : ((s.live.filter (fun q => q.1 ≠ gid)).map Prod.fst).Nodup :=
      hs.keysNodup.sublist ((List.filter_sublist _).map Prod.fst)
    have hcount' : s.refCount - 1 = (s.live.filter (fun q => q.1 ≠ gid)).length := by
      rw [hs.count_eq]
      omega
    have hdnLower' : ∀ b ∈ s.devNullBufs.erase info.buf, 2 ≤ b :=
      fun b hb => hs.dnLower b (Finset.mem_erase.mp hb).2
    have hallLower' : ∀ b ∈ insert info.buf s.allDevNullBufs, 2 ≤ b := by
      intro b hb
      rcases Finset.mem_insert.mp hb with rfl | hb'
      · rw [hbuf]
        simp [guardBuf]
      · exact hs.allLower b hb'
    have hsaved' : ∀ p ∈ s.live.filter (fun q => q.1 ≠ gid),
        ((p : Nat × GuardInfo).2.savedCerr = initialCerrBuf ∧
          p.2.savedClog = initialClogBuf) ∨
        (p.2.savedClog = p.2.savedCerr ∧
          (p.2.savedCerr ∈ s.devNullBufs.erase info.buf ∨
            p.2.savedCerr ∈ insert info.buf s.allDevNullBufs)) := by
      intro p hp
      rcases hs.savedOk p (hfilter_mem p hp) with hso | hso
      · exact Or.inl hso
      · right
        refine ⟨hso.1, ?_⟩
        rcases hso.2 with hdn | hall
        · by_cases hbeq : p.2.savedCerr = info.buf
          · right
            rw [hbeq]
            exact Finset.mem_insert_self _ _
          · left
            exact Finset.mem_erase.mpr ⟨hbeq, hdn⟩
        · right
          exact Finset.mem_insert_of_mem hall
    have hkeyBound' : ∀ p ∈ s.live.filter (fun q => q.1 ≠ gid),
        (p : Nat × GuardInfo).2.buf = guardBuf p.1 ∧ p.1 < s.nextId :=
      fun p hp => hs.keyBound p (hfilter_mem p hp)
    simp only [applyDestroy, hlk]
    by_cases h1 : s.refCount - 1 = 0
    · rw [if_pos h1]
      have hlive_nil : s.live.filter (fun q => q.1 ≠ gid) = [] := by
        rw [← List.length_eq_zero]
        omega
      refine ⟨hcount', ?_, ?_, ?_, ?_, ?_, ?_, ?_, ?_, ?_⟩
      · intro _
        exact ⟨(hs.originals hrcpos).1, (hs.originals hrcpos).2⟩
      · intro hpos
        have hpos' : 0 < s.refCount - 1 := hpos
        omega
      · exact Or.inl ⟨(hs.originals hrcpos).1, (hs.originals hrcpos).2⟩
      · intro b hb
        obtain ⟨p, hp, -⟩ := hdnlive b hb
        rw [hlive_nil] at hp
        simp at hp
      · intro p hp
        rw [hlive_nil] at hp
        simp at hp
      · intro p hp
        rw [hlive_nil] at hp
        simp at hp
      · exact hnodup'
      · exact hdnLower'
      · intro b hb
        simp at hb
    · rw [if_neg h1]
      by_cases h2 : info.savedCerr ∉ insert info.buf s.allDevNullBufs
      · rw [if_pos h2]
        refine ⟨hcount', ?_, ?_, ?_, hdnlive, hsaved', hkeyBound', hnodup',
          hdnLower', hallLower'⟩
        · intro h
          exact absurd h h1
        · intro _
          exact hs.originals hrcpos
        · rcases hs.savedOk (gid, info) hmem with hso | hso
          · exact Or.inl ⟨hso.1, hso.2⟩
          · right
            refine ⟨hso.1, ?_⟩
            have hnotall : info.savedCerr ∉ s.allDevNullBufs :=
              fun hc => h2 (Finset.mem_insert_of_mem hc)
            have hnotbuf : info.savedCerr ≠ info.buf :=
              fun hc => h2 (hc ▸ Finset.mem_insert_self _ _)
            rcases hso.2 with hdn | hall
            · exact Or.inl (Finset.mem_erase.mpr ⟨hnotbuf, hdn⟩)
            · exact absurd hall hnotall
      · rw [if_neg h2]
        push_neg at h2
        by_cases h3 : info.savedCerr ∈ s.devNullBufs.erase info.buf
        · rw [if_pos h3]
          refine ⟨hcount', ?_, ?_, ?_, hdnlive, hsaved', hkeyBound', hnodup',
            hdnLower', hallLower'⟩
          · intro h
            exact absurd h h1
          · intro _
            exact hs.originals hrcpos
          · rcases hs.savedOk (gid, info) hmem with hso | hso
            · have : (2 : Nat) ≤ initialCerrBuf := by
                have := hdnLower' _ (hso.1 ▸ h3)
                exact this
              simp [initialCerrBuf] at this
            · exact Or.inr ⟨hso.1, Or.inl h3⟩
        · rw [if_neg h3]
          refine ⟨hcount', ?_, ?_, ?_, hdnlive, hsaved', hkeyBound', hnodup',
            hdnLower', hallLower'⟩
          · intro h
            exact absurd h h1
          · intro _
            exact hs.originals hrcpos
          · rcases hs.current with hc | hc
            · exact Or.inl hc
            · right
              refine ⟨hc.1, ?_⟩
              rcases hc.2 with hdn | hall
              · by_cases hbeq : s.cerr = info.buf
                · right
                  rw [hbeq]
                  exact Finset.mem_insert_self _ _
                · exact Or.inl (Finset.mem_erase.mpr ⟨hbeq, hdn⟩)
              · exact Or.inr (Finset.mem_insert_of_mem hall)

/-- Every trace of guard constructions and destructions reaches an invariant
state. -/
theorem goodState_run (events : List GuardEvent) :
    GoodState (runGuards events) := by
  suffices h : ∀ (es : List GuardEvent) (s : StreamState), GoodState s →
      GoodState (es.foldl applyEvent s) by
    exact h events initStreamState goodState_init
  intro es
  induction es with
  | nil => intro s hs; exact hs
  | cons e t ih =>
    intro s hs
    rw [List.foldl_cons]
    apply ih
    cases e with
    | construct opened => exact goodState_construct opened s hs
    | destroy gid => exact goodState_destroy gid s hs

/-- The initial buffers and the buffers of live guards are never the buffer of
an already-destroyed guard. -/
theorem not_destroyed_of_live (s : StreamState) (hs : GoodState s) (b : Nat)
    (hb : (b = initialCerrBuf ∨ b = initialClogBuf) ∨
      ∃ p ∈ s.live, (p : Nat × GuardInfo).2.buf = b) :
    b ∉ destroyedGuardBufs s := by
  intro hmem
  obtain ⟨g, hg, hgb⟩ := Finset.mem_image.mp hmem
  have hlkp : (s.live.lookup g).isNone = true := by
    have := (Finset.mem_filter.mp hg).2
    simpa using this
  rcases hb with hinit | ⟨p, hp, hpb⟩
  · rcases hinit with rfl | rfl
    · simp [guardBuf, initialCerrBuf] at hgb
    · simp [guardBuf, initialClogBuf] at hgb
  · have hpk : p.2.buf = guardBuf p.1 := (hs.keyBound p hp).1
    have hgg : guardBuf g = guardBuf p.1 := by rw [hgb, ← hpb, hpk]
    have hgp : g = p.1 := by simpa [guardBuf] using hgg
    have hlkp' : s.live.lookup p.1 = none := by
      rw [← hgp]
      rw [Option.isNone_iff_eq_none] at hlkp
      exact hlkp
    have hsome := lookup_isSome_of_mem p.1 p.2 s.live hp
    rw [hlkp'] at hsome
    simp at hsome

/-- Whenever a destructor changes the installed streams, what it installs is
either the original initial buffers or the devNull buffer of a still-live
guard — never the buffer of a destroyed guard. -/
theorem destroy_install_safe (gid : Nat) (s : StreamState) (hs : GoodState s) :
    ((applyDestroy gid s).cerr ≠ s.cerr ∨ (applyDestroy gid s).clog ≠ s.clog) →
    ((applyDestroy gid s).cerr = initialCerrBuf ∧
      (applyDestroy gid s).clog = initialClogBuf) ∨
    (∃ p ∈ (applyDestroy gid s).live,
      (p : Nat × GuardInfo).2.buf = (applyDestroy gid s).cerr ∧
      (applyDestroy gid s).clog = (applyDestroy gid s).cerr) := by
  intro hchange
  cases hlk : s.live.lookup gid with
  | none =>
    simp only [applyDestroy, hlk] at hchange
    rcases hchange with h | h <;> exact absurd rfl h
  | some info =>
    have hmem : (gid, info) ∈ s.live := lookup_mem gid info s.live hlk
    have hrcpos : 0 < s.refCount := by
      rw [hs.count_eq]
      have := List.length_pos.mpr (List.ne_nil_of_mem hmem)
      omega
    have hlive_sub : ∀ p : Nat × GuardInfo, p ∈ s.live → p.1 ≠ gid →
        p ∈ s.live.filter (fun q => q.1 ≠ gid) := by
      intro p hp hne
      rw [List.mem_filter]
      exact ⟨hp, by simpa using hne⟩
    have hdnlive : ∀ b ∈ s.devNullBufs.erase info.buf,
        ∃ p ∈ s.live.filter (fun q => q.1 ≠ gid),
          (p : Nat × GuardInfo).2.buf = b := by
      intro b hb
      have hbn : b ≠ info.buf := (Finset.mem_erase.mp hb).1
      obtain ⟨p, hp, hpb⟩ := hs.liveBufs b (Finset.mem_erase.mp hb).2
      have hne : p.1 ≠ gid := by
        intro heq
        have hgp : (gid, p.2) ∈ s.live := by
          have hps : (gid, p.2) = p := by rw [← heq]
          rw [hps]
          exact hp
        have hpi : p.2 = info :=
          keys_nodup_unique gid p.2 info s.live hs.keysNodup hgp hmem
        rw [hpi] at hpb
        exact hbn hpb.symm
      exact ⟨p, hlive_sub p hp hne, hpb⟩
    simp only [applyDestroy, hlk] at hchange ⊢
    by_cases h1 : s.refCount - 1 = 0
    · rw [if_pos h1]
      exact Or.inl ⟨(hs.originals hrcpos).1, (hs.originals hrcpos).2⟩
    · rw [if_neg h1] at hchange ⊢
      by_cases h2 : info.savedCerr ∉ insert info.buf s.allDevNullBufs
      · rw [if_pos h2]
        rcases hs.savedOk (gid, info) hmem with hso | hso
        · exact Or.inl ⟨hso.1, hso.2⟩
        · have hnotall : info.savedCerr ∉ s.allDevNullBufs :=
            fun hc => h2 (Finset.mem_insert_of_mem hc)
          have hnotbuf : info.savedCerr ≠ info.buf :=
            fun hc => h2 (hc ▸ Finset.mem_insert_self _ _)
          have hdn : info.savedCerr ∈ s.devNullBufs.erase info.buf := by
            rcases hso.2 with hdn0 | hall0
            · exact Finset.mem_erase.mpr ⟨hnotbuf, hdn0⟩
            · exact absurd hall0 hnotall
          obtain ⟨p, hp, hpb⟩ := hdnlive _ hdn
          exact Or.inr ⟨p, hp, hpb, hso.1⟩
      · rw [if_neg h2] at hchange ⊢
        by_cases h3 : info.savedCerr ∈ s.devNullBufs.erase info.buf
        · rw [if_pos h3]
          rcases hs.savedOk (gid, info) hmem with hso | hso
          · have h2le : (2 : Nat) ≤ initialCerrBuf :=
              hs.dnLower _ (Finset.mem_erase.mp (hso.1 ▸ h3)).2
            simp [initialCerrBuf] at h2le
          · obtain ⟨p, hp, hpb⟩ := hdnlive _ h3
            exact Or.inr ⟨p, hp, hpb, hso.1⟩
        · rw [if_neg h3] at hchange
          rcases hchange with h | h <;> exact absurd rfl h

/-- Claim C9: for every sequence of `SuppressStreams` constructions and
destructions (including destruction during exception unwinding and arbitrary
cross-thread interleavings, all serialized by the static mutex): when the
static reference count returns to zero, `std::cerr` and `std::clog` hold
exactly the buffers they held before the first guard was constructed; and
whenever any destructor changes the installed streams, what it installs is
the original buffers or the devNull buffer of a still-live guard — a
destructor never installs the buffer of an already-destroyed guard. -/
theorem suppress_streams_restore_correct (events : List GuardEvent)
    (gid : Nat) :
    ((runGuards events).refCount = 0 →
      (runGuards events).cerr = initialCerrBuf ∧
      (runGuards events).clog = initialClogBuf) ∧
    (((applyDestroy gid (runGuards events)).cerr ≠ (runGuards events).cerr ∨
        (applyDestroy gid (runGuards events)).clog ≠ (runGuards events).clog) →
      (((applyDestroy gid (runGuards events)).cerr = initialCerrBuf ∧
          (applyDestroy gid (runGuards events)).clog = initialClogBuf) ∨
        ∃ p ∈ (applyDestroy gid (runGuards events)).live,
          (p : Nat × GuardInfo).2.buf =
            (applyDestroy gid (runGuards events)).cerr ∧
          (applyDestroy gid (runGuards events)).clog =
            (applyDestroy gid (runGuards events)).cerr) ∧
      (applyDestroy gid (runGuards events)).cerr ∉
        destroyedGuardBufs (applyDestroy gid (runGuards events)) ∧
      (applyDestroy gid (runGuards events)).clog ∉
        destroyedGuardBufs (applyDestroy gid (runGuards events))) := by
  have hs := goodState_run events
  refine ⟨hs.restored, ?_⟩
  intro hchange
  have hmain := destroy_install_safe gid (runGuards events) hs hchange
  have hs' := goodState_destroy gid (runGuards events) hs
  refine ⟨hmain, ?_, ?_⟩
  · apply not_destroyed_of_live _ hs'
    rcases hmain with hinit | ⟨p, hp, hpb, _⟩
    · exact Or.inl (Or.inl hinit.1)
    · exact Or.inr ⟨p, hp, hpb⟩
  · apply not_destroyed_of_live _ hs'
    rcases hmain with hinit | ⟨p, hp, hpb, hcc⟩
    · exact Or.inl (Or.inr hinit.2)
    · exact Or.inr ⟨p, hp, hpb.trans hcc.symm⟩

/-- Witness for C9: after constructing two guards and destroying both, the
original buffers are restored; and a concrete non-LIFO destruction installs a
buffer that is not a destroyed guard's. -/
theorem suppress_streams_restore_correct_witness :
    ((runGuards [GuardEvent.construct true, GuardEvent.construct true,
        GuardEvent.destroy 0, GuardEvent.destroy 1]).cerr = initialCerrBuf ∧
      (runGuards [GuardEvent.construct true, GuardEvent.construct true,
        GuardEvent.destroy 0, GuardEvent.destroy 1]).clog = initialClogBuf) ∧
    (applyDestroy 0 (runGuards [GuardEvent.construct true,
        GuardEvent.construct true])).cerr ∉
      destroyedGuardBufs (applyDestroy 0 (runGuards [GuardEvent.construct true,
        GuardEvent.construct true])) :=
  ⟨(suppress_streams_restore_correct [GuardEvent.construct true,
      GuardEvent.construct true, GuardEvent.destroy 0, GuardEvent.destroy 1]
      0).1 (by decide),
   ((suppress_streams_restore_correct [GuardEvent.construct true,
      GuardEvent.construct true] 0).2 (by decide)).2.1⟩

/-- Lookups ignore the removal of a different key. -/
theorem lookup_filter_path (p p' : DiskPath) (hne : p ≠ p') :
    ∀ d : Disk, List.lookup p (d.filter (fun q => q.1 ≠ p')) =
      List.lookup p d := by
  intro d
  induction d with
  | nil => rfl
  | cons q t ih =>
    obtain ⟨a, c⟩ := q
    by_cases ha : a = p'
    · subst ha
      have hd : (decide ((a, c).1 ≠ a)) = false := by simp
      rw [List.filter_cons, hd]
      simp only [Bool.false_eq_true, if_false]
      rw [ih]
      have hpa : (p == a) = false := by
        simp only [beq_eq_false_iff_ne]
        exact hne
      simp only [List.lookup, hpa]
    · have hd : (decide ((a, c).1 ≠ p')) = true := by simp [ha]
      rw [List.filter_cons, hd]
      simp only [if_true]
      by_cases hpa : p = a
      · subst hpa
        simp [List.lookup]
      · have hb : (p == a) = false := by
          simp only [beq_eq_false_iff_ne]
          exact hpa
        simp only [List.lookup, hb]
        exact ih

/-- Writing one path does not affect reads of another. -/
theorem diskRead_write_ne (d : Disk) (p p' : DiskPath) (c : List Nat)
    (hne : p ≠ p') : diskRead (diskWrite d p' c) p = diskRead d p := by
  have hb : (p == p') = false := by
    simp only [beq_eq_false_iff_ne]
    exact hne
  simp only [diskRead, diskWrite, List.lookup, hb]
  exact lookup_filter_path p p' hne d

/-- Removing one path does not affect reads of another. -/
theorem diskRead_remove_ne (d : Disk) (p p' : DiskPath) (hne : p ≠ p') :
    diskRead (diskRemove d p') p = diskRead d p :=
  lookup_filter_path p p' hne d

/-- Streaming a pair's blocks writes only its staging file: reads of every
permanent permutation file are unaffected. -/
theorem writePairBlocks_perm_unchanged (newBase : String) (pairIdx : Nat)
    (faults : Nat → Nat → Bool) (base : String) (i : Nat) :
    ∀ (k : Nat) (blocks : List (List Nat)) (d : Disk),
      diskRead (writePairBlocks newBase pairIdx faults k blocks d).2
          (DiskPath.permFile base i) =
        diskRead d (DiskPath.permFile base i) := by
  intro k blocks
  induction blocks generalizing k with
  | nil => intro d; rfl
  | cons blk rest ih =>
    intro d
    by_cases hf : faults pairIdx k
    · simp only [writePairBlocks, hf, if_true]
    · simp only [writePairBlocks, hf, Bool.false_eq_true, if_false]
      rw [ih (k + 1)]
      exact diskRead_write_ne _ _ _ _ (by simp)

/-- Running every pair's writes leaves all permanent permutation files
unchanged (publication has not happened yet). -/
theorem writeAllPairs_perm_unchanged (newBase : String)
    (faults : Nat → Nat → Bool) (base : String) (i : Nat) :
    ∀ (k : Nat) (pairs : List (List (List Nat))) (d : Disk),
      diskRead (writeAllPairs newBase faults k pairs d).2
          (DiskPath.permFile base i) =
        diskRead d (DiskPath.permFile base i) := by
  intro k pairs
  induction pairs generalizing k with
  | nil => intro d; rfl
  | cons blocks rest ih =>
    intro d
    simp only [writeAllPairs]
    cases hw : writePairBlocks newBase k faults 0 blocks d with
    | mk res d' =>
      have hd' : diskRead d' (DiskPath.permFile base i) =
          diskRead d (DiskPath.permFile base i) := by
        have := writePairBlocks_perm_unchanged newBase k faults base i 0 blocks d
        rw [hw] at this
        exact this
      cases res with
      | some e => simpa using hd'
      | none =>
        simp only []
        rw [ih (k + 1) d']
        exact hd'

/-- Discarding staging files leaves all permanent permutation files
unchanged. -/
theorem discardStaging_perm_unchanged (newBase : String) (base : String)
    (i : Nat) : ∀ (n : Nat) (d : Disk),
      diskRead (discardStaging newBase n d) (DiskPath.permFile base i) =
        diskRead d (DiskPath.permFile base i) := by
  intro n
  induction n with
  | zero => intro d; rfl
  | succ m ih =>
    intro d
    simp only [discardStaging]
    rw [diskRead_remove_ne _ _ _ (by simp)]
    exact ih d

/-- A pair that finished without error hit no injected fault. -/
theorem writePairBlocks_none_no_faults (newBase : String) (pairIdx : Nat)
    (faults : Nat → Nat → Bool) :
    ∀ (k : Nat) (blocks : List (List Nat)) (d : Disk),
      (writePairBlocks newBase pairIdx faults k blocks d).1 = none →
      ∀ j < blocks.length, faults pairIdx (k + j) = false := by
  intro k blocks
  induction blocks generalizing k with
  | nil =>
    intro d _ j hj
    simp at hj
  | cons blk rest ih =>
    intro d hnone j hj
    by_cases hf : faults pairIdx k
    · simp only [writePairBlocks, hf, if_true] at hnone
      exact Option.noConfusion hnone
    · simp only [writePairBlocks, hf, Bool.false_eq_true, if_false] at hnone
      cases j with
      | zero =>
        simpa using Bool.eq_false_iff.mpr hf
      | succ j' =>
        have := ih (k + 1) _ hnone j' (by simpa using Nat.lt_of_succ_lt_succ hj)
        have harith : k + (j' + 1) = k + 1 + j' := by omega
        rw [harith]
        exact this

/-- A rebuild that finished all pair writes hit no injected fault anywhere. -/
theorem writeAllPairs_none_no_faults (newBase : String)
    (faults : Nat → Nat → Bool) :
    ∀ (k : Nat) (pairs : List (List (List Nat))) (d : Disk),
      (writeAllPairs newBase faults k pairs d).1 = none →
      ∀ j < pairs.length, ∀ b < (pairs.getD j []).length,
        faults (k + j) b = false := by
  intro k pairs
  induction pairs generalizing k with
  | nil =>
    intro d _ j hj
    simp at hj
  | cons blocks rest ih =>
    intro d hnone j hj b hb
    simp only [writeAllPairs] at hnone
    cases hw : writePairBlocks newBase k faults 0 blocks d with
    | mk res d' =>
      rw [hw] at hnone
      cases res with
      | some e => simp at hnone
      | none =>
        simp only [] at hnone
        cases j with
        | zero =>
          have hres : (writePairBlocks newBase k faults 0 blocks d).1 = none := by
            rw [hw]
          have := writePairBlocks_none_no_faults newBase k faults 0 blocks d
            hres b (by simpa using hb)
          simpa using this
        | succ j' =>
          have := ih (k + 1) d' hnone j'
            (by simpa using Nat.lt_of_succ_lt_succ hj) b
            (by simpa using hb)
          have harith : k + (j' + 1) = k + 1 + j' := by omega
          rw [harith]
          exact this

/-- Claim C5: failure atomicity.  A rebuild that fails at any injected fault
(including the last block of the last pair) surfaces the error while every
permanent permutation file of every base reads back exactly as before — the
old index is untouched and no partial new index is published; and a success
result is possible only when every block write of every pair completed
without fault. -/
theorem rebuild_failure_atomic (d : Disk) (newBase : String)
    (pairOutputs : List (List (List Nat))) (faults : Nat → Nat → Bool) :
    (∀ e, (runRebuild d newBase pairOutputs faults).1 = Except.error e →
      ∀ base i, diskRead (runRebuild d newBase pairOutputs faults).2
          (DiskPath.permFile base i) = diskRead d (DiskPath.permFile base i)) ∧
    ((runRebuild d newBase pairOutputs faults).1 =
        Except.ok { skipped := false } →
      ∀ j < pairOutputs.length, ∀ b < (pairOutputs.getD j []).length,
        faults j b = false) := by
  cases hw : writeAllPairs newBase faults 0 pairOutputs d with
  | mk res d' =>
    cases res with
    | some e' =>
      constructor
      · intro e _ base i
        simp only [runRebuild, hw]
        rw [discardStaging_perm_unchanged newBase base i pairOutputs.length d']
        have := writeAllPairs_perm_unchanged newBase faults base i 0 pairOutputs d
        rw [hw] at this
        exact this
      · intro hok
        simp only [runRebuild, hw] at hok
        exact Except.noConfusion hok
    | none =>
      constructor
      · intro e herr
        simp only [runRebuild, hw] at herr
        exact Except.noConfusion herr
      · intro _ j hj b hb
        have hres : (writeAllPairs newBase faults 0 pairOutputs d).1 = none := by
          rw [hw]
        have := writeAllPairs_none_no_faults newBase faults 0 pairOutputs d
          hres j hj b hb
        simpa using this

/-- Witness for C5: a write fault injected at the last block of the last pair
surfaces as an error and the old permutation file of the in-place base reads
back byte-identical. -/
theorem rebuild_failure_atomic_witness :
    diskRead (runRebuild [(DiskPath.permFile ("idx") 0, [9, 9])] ("idx")
        [[[1], [2]], [[3], [4]]] (fun p b => decide (p = 1 ∧ b = 1))).2
      (DiskPath.permFile ("idx") 0) = some [9, 9] :=
  ((rebuild_failure_atomic [(DiskPath.permFile ("idx") 0, [9, 9])] ("idx")
      [[[1], [2]], [[3], [4]]] (fun p b => decide (p = 1 ∧ b = 1))).1
      (RebuildError.writeFailure 1 1) (by rfl) ("idx") 0).trans (by decide)

end QleverSpec
